import Mathlib

/-
Verification of the chunk-enrichment pipeline of the Godzilla_dataset
repository, as implemented in
  embedded_dat/scripts/build_nelson_gpt_knowledge.py   (namespace BN below)
  embedded_dat/scripts/processing_script.py            (namespace PS below)

Python strings are modelled as `List Char` (the corpus is ASCII, so
Python's str semantics and this model agree on every character class the
scripts use).  Python dicts are modelled as association lists in insertion
order, which is dict iteration order in the Python 3 these scripts target.
Regular expressions in the scripts are either literal alternations,
anchored literal patterns, or small patterns with bounded backtracking;
each is translated to a dedicated matcher that follows the Python `re`
semantics (leftmost match, ordered alternation, greedy and lazy
quantifiers) on the inputs the scripts can produce.
-/

set_option maxRecDepth 10000

namespace Nelson

/-- Characters Python's str.strip(), str.split() and the regex class \s
treat as whitespace (the ASCII range). -/
def pyWs (c : Char) : Bool :=
  c = ' ' || c = '\t' || c = '\n' || c = '\r' || c = '\x0b' || c = '\x0c'

/-- Python str.lower over ASCII text. -/
def pyLower (s : List Char) : List Char := s.map Char.toLower

/-- Python membership test of the str operator in: pyContains pat hay
decides whether pat occurs as a contiguous substring of hay. -/
def pyContains (pat : List Char) : List Char → Bool
  | [] => pat.isEmpty
  | c :: t => pat.isPrefixOf (c :: t) || pyContains pat t

/-- Worker of the occurrence counter, driven by fuel so that it reduces
structurally; the wrapper passes fuel beyond the input length and every
step consumes at least one character. -/
def pyCountAux (pat : List Char) : Nat → List Char → Nat
  | 0, _ => 0
  | _ + 1, [] => if pat.isEmpty then 1 else 0
  | fuel + 1, c :: t =>
    if pat.isEmpty then 1 + pyCountAux pat fuel t
    else if pat.isPrefixOf (c :: t) then 1 + pyCountAux pat fuel (t.drop (pat.length - 1))
    else pyCountAux pat fuel t

/-- Python str.count: the number of non-overlapping occurrences of pat,
scanning left to right (an empty pattern counts len+1 times, as in
Python). -/
def pyCount (pat s : List Char) : Nat := pyCountAux pat (s.length + 1) s

/-- Python str.strip(chars): both ends, any character of cs. -/
def pyStripChars (cs : List Char) (s : List Char) : List Char :=
  ((s.dropWhile (cs.contains ·)).reverse.dropWhile (cs.contains ·)).reverse

/-- Python str.strip() with no argument: whitespace at both ends. -/
def pyStrip (s : List Char) : List Char :=
  ((s.dropWhile (pyWs ·)).reverse.dropWhile (pyWs ·)).reverse

/-- Python str.rstrip(chars). -/
def pyRstrip (cs : List Char) (s : List Char) : List Char :=
  (s.reverse.dropWhile (cs.contains ·)).reverse

/-- Python str.split(sep) for a one-character separator: keeps empty
pieces, and the empty string yields one empty piece. -/
def pySplitChar (sep : Char) : List Char → List (List Char)
  | [] => [[]]
  | c :: t =>
    let r := pySplitChar sep t
    if c = sep then [] :: r
    else match r with
      | [] => [[c]]
      | w :: ws => (c :: w) :: ws

/-- One step of the whitespace splitter: the state is the finished words
so far and the word being accumulated. -/
def pySplitWsStep (st : List (List Char) × List Char) (c : Char) :
    List (List Char) × List Char :=
  if pyWs c then (if st.2 = [] then st.1 else st.1 ++ [st.2], [])
  else (st.1, st.2 ++ [c])

/-- Python str.split() with no argument: split on whitespace runs and
drop empty pieces. -/
def pySplitWs (s : List Char) : List (List Char) :=
  let st := s.foldl pySplitWsStep ([], [])
  if st.2 = [] then st.1 else st.1 ++ [st.2]

/-- Python sep.join(pieces). -/
def joinSep (sep : List Char) : List (List Char) → List Char
  | [] => []
  | [w] => w
  | w :: w2 :: ws => w ++ sep ++ joinSep sep (w2 :: ws)

/-- Number of words of a string in the sense of Python str.split(). -/
def wordCount (s : List Char) : Nat := (pySplitWs s).length

theorem length_dropWhile_le (p : Char → Bool) :
    ∀ l : List Char, (l.dropWhile p).length ≤ l.length := by
  intro l
  induction l with
  | nil => simp [List.dropWhile]
  | cons c t ih =>
    by_cases h : p c
    · simp only [List.dropWhile, h, List.length_cons]
      omega
    · simp [List.dropWhile, h]

/-- Python regex word characters, the class \w, over ASCII. -/
def reWordChar (c : Char) : Bool := c.isAlphanum || c = '_'

/-- Attempt to read a literal alternative tok at the head of s and check
the regex's closing word boundary against the character after it (no
following character counts as a non-word character).  Returns the
wordness of the token's last character and the remaining input. -/
def matchTokAt (tok : List Char) (s : List Char) : Option (Bool × List Char) :=
  if tok.isEmpty then none
  else if tok.isPrefixOf s then
    let rest := s.drop tok.length
    let lastW := reWordChar (tok.getLastD ' ')
    let nextW := match rest with | [] => false | c :: _ => reWordChar c
    if lastW != nextW then some (lastW, rest) else none
  else none

/-- Worker of the findall counter for a word-bounded literal alternation
\b(t1|t2|...)\b: scans left to right; prevW is the wordness of the
character before the current position (the start of the string counts as
non-word); after a hit the scan resumes after the matched token, as
re.findall does for non-overlapping matches.  The alternatives all start
with a word character, so the opening boundary holds iff prevW is
false. -/
def countToksAux (toks : List (List Char)) : Nat → Bool → List Char → Nat
  | 0, _, _ => 0
  | fuel + 1, prevW, s =>
    match s with
    | [] => 0
    | c :: t =>
      match (if prevW then none else toks.findSome? (fun tok => matchTokAt tok (c :: t))) with
      | some (lastW, rest) => 1 + countToksAux toks fuel lastW rest
      | none => countToksAux toks fuel (reWordChar c) t

/-- Count of re.findall matches of a word-bounded literal alternation. -/
def countToks (toks : List (List Char)) (s : List Char) : Nat :=
  countToksAux toks (s.length + 1) false s

/-- Worker of the boolean re.search for a word-bounded literal token:
the opening boundary compares the previous character's wordness with the
token's first character's wordness. -/
def reSearchWordBoundedAux (tok : List Char) : Bool → List Char → Bool
  | _, [] => false
  | prevW, c :: t =>
    ((prevW != reWordChar (tok.headD ' ')) && (matchTokAt tok (c :: t)).isSome)
      || reSearchWordBoundedAux tok (reWordChar c) t

/-- Boolean re.search of a word-bounded literal token \btok\b. -/
def reSearchWordBounded (tok : List Char) (s : List Char) : Bool :=
  reSearchWordBoundedAux tok false s

/-- Boolean re.search of a word-bounded literal alternation: for a bare
presence test the scan order over alternatives does not matter. -/
def reSearchAnyWordBounded (toks : List (List Char)) (s : List Char) : Bool :=
  toks.any (fun tok => reSearchWordBounded tok s)

/-- Characters of the regex class [IVXLCDM] under re.IGNORECASE. -/
def romanChar (c : Char) : Bool := "ivxlcdm".data.contains c.toLower

/-- Matcher of processing_script's RE_PAGE, the anchored ignore-case
pattern Page-whitespace-digits to the end of the segment. -/
def rePageMatches (s : List Char) : Bool :=
  let t0 := s.dropWhile (pyWs ·)
  if pyLower (t0.take 4) == "page".data then
    let t1 := (t0.drop 4).dropWhile (pyWs ·)
    let digits := t1.takeWhile (·.isDigit)
    (!digits.isEmpty) && ((t1.dropWhile (·.isDigit)).dropWhile (pyWs ·)).isEmpty
  else false

/-- Lazy tail matcher for a group of the form (.+?)\s*$: the shortest
nonempty newline-free prefix whose remainder is all whitespace.  none
when no such split exists. -/
def reLazyTail : List Char → Option (List Char)
  | [] => none
  | c :: t =>
    if c = '\n' then none
    else if t.all (pyWs ·) then some [c]
    else (reLazyTail t).map (c :: ·)

/-- Tail of processing_script's RE_PART after the roman numeral: the
optional punctuation, optional ignore-case u marker (each tried with the
alternative taken first, as the regex engine does) and the lazy title
group.  Whitespace stars are taken maximally; giving characters back
cannot change the outcome on the stripped segments this is applied to,
because the following atoms never match whitespace. -/
def rePartAfterRoman (rest : List Char) : Option (List Char) :=
  let tryDE : List Char → Option (List Char) := fun r =>
    match r with
    | c :: t =>
      if c.toLower = 'u' then
        match reLazyTail (t.dropWhile (pyWs ·)) with
        | some g => some g
        | none => reLazyTail r
      else reLazyTail r
    | [] => none
  let restA := rest.dropWhile (pyWs ·)
  match restA with
  | c :: t =>
    if c = ':' || c = '-' || c = '–' || c = '—' then
      match tryDE (t.dropWhile (pyWs ·)) with
      | some g => some g
      | none => tryDE restA
    else tryDE restA
  | [] => none

/-- Greedy loop over the length of the roman-numeral run of RE_PART:
the regex engine tries the longest run first and backtracks one
character at a time. -/
def rePartRomanLoop (t2 : List Char) : Nat → Option (List Char)
  | 0 => none
  | k + 1 =>
    match rePartAfterRoman (t2.drop (k + 1)) with
    | some g => some g
    | none => rePartRomanLoop t2 k

/-- Matcher of processing_script's RE_PART: the anchored ignore-case
pattern Part, whitespace, a roman numeral, optional punctuation and u
marker, and a lazily captured title.  Returns the raw capture group. -/
def rePartMatch (s : List Char) : Option (List Char) :=
  let t0 := s.dropWhile (pyWs ·)
  if pyLower (t0.take 4) == "part".data then
    let t1 := t0.drop 4
    if (t1.takeWhile (pyWs ·)).isEmpty then none
    else
      let t2 := t1.dropWhile (pyWs ·)
      rePartRomanLoop t2 (t2.takeWhile (romanChar ·)).length
  else none

/-- Matcher of a final group (.*)$ without DOTALL: the capture is the
run up to the first newline, and the match succeeds only when that
newline is absent or the final character. -/
def reStarTail (r : List Char) : Option (List Char) :=
  let p := r.takeWhile (fun c => c ≠ '\n')
  let rest := r.drop p.length
  if rest = [] || rest = ['\n'] then some p else none

/-- Matcher of processing_script's RE_CHAPTER: anchored ignore-case
Chapter, whitespace, digits, an optional dash-or-colon run, whitespace,
and the rest of the segment as the title group. -/
def reChapterMatch (s : List Char) : Option (List Char) :=
  let t0 := s.dropWhile (pyWs ·)
  if pyLower (t0.take 7) == "chapter".data then
    let t1 := t0.drop 7
    if (t1.takeWhile (pyWs ·)).isEmpty then none
    else
      let t2 := t1.dropWhile (pyWs ·)
      let digits := t2.takeWhile (·.isDigit)
      if digits.isEmpty then none
      else
        let t3 := ((t2.dropWhile (·.isDigit)).dropWhile (pyWs ·)).dropWhile
          (fun c => c = '—' || c = '-' || c = ':')
        reStarTail (t3.dropWhile (pyWs ·))
  else none

/-- Case-sensitive re.sub of the anchored pattern u-then-whitespace with
the empty string: used on heading candidates. -/
def stripLeadingU (s : List Char) : List Char :=
  match s with
  | 'u' :: t => if (t.takeWhile (pyWs ·)).isEmpty then s else t.dropWhile (pyWs ·)
  | _ => s

/-- Ignore-case re.sub of the anchored alternation Section-colon-or-u
followed by optional whitespace, as applied to the residual heading
segments of parse_heading_path. -/
def stripSectionPrefix (s : List Char) : List Char :=
  if pyLower (s.take 8) == "section:".data then (s.drop 8).dropWhile (pyWs ·)
  else match s with
    | c :: t => if c.toLower = 'u' then t.dropWhile (pyWs ·) else s
    | [] => s

/-- Lookahead (?:\s*>|$): after a lazily captured title the regex stops
at optional whitespace and a > separator, or at the end of the string
($ also matches just before one final newline). -/
def lookGtOrEnd (r : List Char) : Bool :=
  (match r.dropWhile (pyWs ·) with
   | '>' :: _ => true
   | _ => false) || r = [] || r = ['\n']

/-- Lazy group (.+?) followed by the lookGtOrEnd lookahead: the shortest
nonempty newline-free prefix at whose end the lookahead holds. -/
def lazyUntilGtOrEnd : List Char → Option (List Char)
  | [] => none
  | c :: t =>
    if c = '\n' then none
    else if lookGtOrEnd t then some [c]
    else (lazyUntilGtOrEnd t).map (c :: ·)

/-- Single-position matcher of build_nelson_gpt_knowledge's part search
pattern: ignore-case Part, whitespace, roman numeral, optional
whitespace, the literal u marker, whitespace, then the lazy title
group up to a > separator or the end. -/
def matchPartUAt (s : List Char) : Option (List Char) :=
  if pyLower (s.take 4) == "part".data then
    let t1 := s.drop 4
    if (t1.takeWhile (pyWs ·)).isEmpty then none
    else
      let t2 := t1.dropWhile (pyWs ·)
      if (t2.takeWhile (romanChar ·)).isEmpty then none
      else
        let t3 := (t2.dropWhile (romanChar ·)).dropWhile (pyWs ·)
        match t3 with
        | c :: rest =>
          if c.toLower = 'u' then
            if (rest.takeWhile (pyWs ·)).isEmpty then none
            else lazyUntilGtOrEnd (rest.dropWhile (pyWs ·))
          else none
        | [] => none
  else none

/-- Unanchored re.search scan for the part pattern above. -/
def bnPartSearch : List Char → Option (List Char)
  | [] => none
  | c :: t =>
    match matchPartUAt (c :: t) with
    | some g => some g
    | none => bnPartSearch t

/-- Single-position matcher of build_nelson_gpt_knowledge's chapter
search pattern: ignore-case Chapter, whitespace, digits, an optional
colon, whitespace, then the lazy title group. -/
def matchChapterAt (s : List Char) : Option (List Char) :=
  if pyLower (s.take 7) == "chapter".data then
    let t1 := s.drop 7
    if (t1.takeWhile (pyWs ·)).isEmpty then none
    else
      let t2 := t1.dropWhile (pyWs ·)
      if (t2.takeWhile (·.isDigit)).isEmpty then none
      else
        let t3 := t2.dropWhile (·.isDigit)
        let t4 := match t3 with
          | ':' :: r => r
          | r => r
        if (t4.takeWhile (pyWs ·)).isEmpty then none
        else lazyUntilGtOrEnd (t4.dropWhile (pyWs ·))
  else none

/-- Unanchored re.search scan for the chapter pattern above. -/
def bnChapterSearch : List Char → Option (List Char)
  | [] => none
  | c :: t =>
    match matchChapterAt (c :: t) with
    | some g => some g
    | none => bnChapterSearch t

/-- Worker of the separator normalisation re.sub of whitespace-gt-
whitespace runs with a single padded >, driven by fuel, which the
wrapper sets above the input length (each step consumes at least one
character). -/
def normGtAux : Nat → List Char → List Char
  | 0, _ => []
  | _, [] => []
  | fuel + 1, c :: t =>
    match (c :: t).dropWhile (pyWs ·) with
    | '>' :: r2 => ' ' :: '>' :: ' ' :: normGtAux fuel (r2.dropWhile (pyWs ·))
    | _ => c :: normGtAux fuel t

/-- Separator normalisation re.sub of build_nelson_gpt_knowledge's
_split_path. -/
def normGt (s : List Char) : List Char := normGtAux (s.length + 1) s

/-- Anchored ignore-case re.sub of Chapter-number-colon prefixes with
the empty string (one of _clean_heading's prefix strips). -/
def subChapterPrefix (s : List Char) : List Char :=
  if pyLower (s.take 7) == "chapter".data then
    let t := s.drop 7
    if (t.takeWhile (pyWs ·)).isEmpty then s
    else
      let t := t.dropWhile (pyWs ·)
      if (t.takeWhile (·.isDigit)).isEmpty then s
      else
        let t := t.dropWhile (·.isDigit)
        let t := match t with
          | ':' :: r => r
          | r => r
        t.dropWhile (pyWs ·)
  else s

/-- Anchored ignore-case re.sub of Part-roman-u prefixes with the empty
string (one of _clean_heading's prefix strips). -/
def subPartUPrefix (s : List Char) : List Char :=
  if pyLower (s.take 4) == "part".data then
    let t := s.drop 4
    if (t.takeWhile (pyWs ·)).isEmpty then s
    else
      let t := t.dropWhile (pyWs ·)
      if (t.takeWhile (romanChar ·)).isEmpty then s
      else
        match (t.dropWhile (romanChar ·)).dropWhile (pyWs ·) with
        | c :: rest => if c.toLower = 'u' then rest.dropWhile (pyWs ·) else s
        | [] => s
  else s

/-- Anchored ignore-case re.sub of a word-number prefix (used for the
Page and Section strips of _clean_heading). -/
def subWordNumPrefix (word : List Char) (s : List Char) : List Char :=
  if pyLower (s.take word.length) == word then
    let t := s.drop word.length
    if (t.takeWhile (pyWs ·)).isEmpty then s
    else
      let t := t.dropWhile (pyWs ·)
      if (t.takeWhile (·.isDigit)).isEmpty then s
      else (t.dropWhile (·.isDigit)).dropWhile (pyWs ·)
  else s

/-- Replacement of every whitespace run of length at least two by one
space, the re.sub of the pattern backslash-s-two-or-more. -/
def collapseWs : List Char → List Char
  | [] => []
  | [c] => [c]
  | c :: c2 :: t =>
    if pyWs c then
      if pyWs c2 then ' ' :: collapseWs ((c2 :: t).dropWhile (pyWs ·))
      else c :: collapseWs (c2 :: t)
    else c :: collapseWs (c2 :: t)
termination_by l => l.length
decreasing_by
  all_goals simp only [List.length_cons]
  all_goals try omega
  all_goals have h := length_dropWhile_le (pyWs ·) (c2 :: t)
  all_goals simp only [List.length_cons] at h
  all_goals omega

/-- Replacement of every whitespace run by one space, the re.sub of
backslash-s-plus used by generate_summary. -/
def normWsAll : List Char → List Char
  | [] => []
  | c :: t =>
    if pyWs c then ' ' :: normWsAll (t.dropWhile (pyWs ·))
    else c :: normWsAll t
termination_by l => l.length
decreasing_by
  all_goals simp only [List.length_cons]
  all_goals have h := length_dropWhile_le (pyWs ·) t
  all_goals omega

/-- Values of the JSON documents the medical_concepts column holds. -/
inductive JVal where
  | null
  | boolean (b : Bool)
  | num (lit : List Char)
  | str (s : List Char)
  | arr (xs : List JVal)
  | obj (kvs : List (List Char × JVal))

/-- Whitespace characters of the JSON grammar. -/
def jsonWs (c : Char) : Bool := c = ' ' || c = '\t' || c = '\n' || c = '\r'

/-- Shorthand for skipping JSON whitespace. -/
def jskipWs (s : List Char) : List Char := s.dropWhile (jsonWs ·)

/-- Value of a hexadecimal digit of a \u escape. -/
def jhexVal (c : Char) : Option Nat :=
  if c.isDigit then some (c.toNat - 48)
  else if 'a' ≤ c && c ≤ 'f' then some (c.toNat - 87)
  else if 'A' ≤ c && c ≤ 'F' then some (c.toNat - 70)
  else none

/-- Body of a JSON string after its opening quote: the decoded
characters and the input after the closing quote.  Unknown escapes and
raw control characters are rejected, as json.loads rejects them. -/
def jescChar : Char → Option Char
  | '"' => some '"'
  | '\\' => some '\\'
  | '/' => some '/'
  | 'b' => some '\x08'
  | 'f' => some '\x0c'
  | 'n' => some '\n'
  | 'r' => some '\r'
  | 't' => some '\t'
  | _ => none

def jparseString : List Char → Option (List Char × List Char)
  | [] => none
  | '"' :: t => some ([], t)
  | '\\' :: 'u' :: h1 :: h2 :: h3 :: h4 :: r =>
    match jhexVal h1, jhexVal h2, jhexVal h3, jhexVal h4 with
    | some a, some b, some c, some d =>
      let n := ((a * 16 + b) * 16 + c) * 16 + d
      if n.isValidChar then
        (jparseString r).map (fun (p : List Char × List Char) => (Char.ofNat n :: p.1, p.2))
      else none
    | _, _, _, _ => none
  | '\\' :: e :: r =>
    match jescChar e with
    | some c => (jparseString r).map (fun (p : List Char × List Char) => (c :: p.1, p.2))
    | none => none
  | c :: t =>
    if c.toNat < 32 then none
    else (jparseString t).map (fun (p : List Char × List Char) => (c :: p.1, p.2))

/-- A JSON number literal at the head of the input: the consumed
characters and the rest.  Follows the JSON grammar; a malformed tail
such as a bare trailing dot is simply not consumed, which makes the
enclosing parse fail exactly where json.loads raises. -/
def jparseNum (s : List Char) : Option (List Char × List Char) :=
  let (sgn, t1) : List Char × List Char :=
    match s with
    | '-' :: t => (['-'], t)
    | t => ([], t)
  let ip := t1.takeWhile (·.isDigit)
  if ip.isEmpty then none
  else
    let ipart : List Char × List Char :=
      match t1 with
      | '0' :: t => (['0'], t)
      | _ => (ip, t1.drop ip.length)
    let (ids, t2) := ipart
    let (fds, t3) : List Char × List Char :=
      match t2 with
      | '.' :: t =>
        let fs := t.takeWhile (·.isDigit)
        if fs.isEmpty then ([], t2) else ('.' :: fs, t.drop fs.length)
      | _ => ([], t2)
    let (eds, t4) : List Char × List Char :=
      match t3 with
      | e :: t =>
        if e = 'e' || e = 'E' then
          let (es, te) : List Char × List Char :=
            match t with
            | '+' :: te => (['+'], te)
            | '-' :: te => (['-'], te)
            | te => ([], te)
          let ds := te.takeWhile (·.isDigit)
          if ds.isEmpty then ([], t3) else (e :: es ++ ds, te.drop ds.length)
        else ([], t3)
      | [] => ([], t3)
    some (sgn ++ ids ++ fds ++ eds, t4)

mutual

/-- JSON value parser in the style of json.loads, with fuel bounded by
the input length (each recursive call first consumes input). -/
def jParseVal : Nat → List Char → Option (JVal × List Char)
  | 0, _ => none
  | fuel + 1, s =>
    match jskipWs s with
    | [] => none
    | '{' :: t =>
      match jskipWs t with
      | '}' :: r => some (.obj [], r)
      | u => (jParseMembers fuel u).map (fun p => (.obj p.1, p.2))
    | '[' :: t =>
      match jskipWs t with
      | ']' :: r => some (.arr [], r)
      | u => (jParseItems fuel u).map (fun p => (.arr p.1, p.2))
    | '"' :: t => (jparseString t).map (fun p => (.str p.1, p.2))
    | c :: t =>
      if "true".data.isPrefixOf (c :: t) then some (.boolean true, (c :: t).drop 4)
      else if "false".data.isPrefixOf (c :: t) then some (.boolean false, (c :: t).drop 5)
      else if "null".data.isPrefixOf (c :: t) then some (.null, (c :: t).drop 4)
      else if "NaN".data.isPrefixOf (c :: t) then some (.num "nan".data, (c :: t).drop 3)
      else if "Infinity".data.isPrefixOf (c :: t) then some (.num "inf".data, (c :: t).drop 8)
      else if "-Infinity".data.isPrefixOf (c :: t) then some (.num "-inf".data, (c :: t).drop 9)
      else (jparseNum (c :: t)).map (fun p => (.num p.1, p.2))

/-- Members of a JSON object after its opening brace and leading
whitespace, consuming the closing brace. -/
def jParseMembers : Nat → List Char → Option (List (List Char × JVal) × List Char)
  | 0, _ => none
  | fuel + 1, s =>
    match s with
    | '"' :: t =>
      match jparseString t with
      | none => none
      | some (key, r1) =>
        match jskipWs r1 with
        | ':' :: r2 =>
          match jParseVal fuel r2 with
          | none => none
          | some (v, r3) =>
            match jskipWs r3 with
            | ',' :: r4 =>
              (jParseMembers fuel (jskipWs r4)).map (fun p => ((key, v) :: p.1, p.2))
            | '}' :: r4 => some ([(key, v)], r4)
            | _ => none
        | _ => none
    | _ => none

/-- Items of a JSON array after its opening bracket and leading
whitespace, consuming the closing bracket. -/
def jParseItems : Nat → List Char → Option (List JVal × List Char)
  | 0, _ => none
  | fuel + 1, s =>
    match jParseVal fuel s with
    | none => none
    | some (v, r1) =>
      match jskipWs r1 with
      | ',' :: r2 => (jParseItems fuel (jskipWs r2)).map (fun p => (v :: p.1, p.2))
      | ']' :: r2 => some ([v], r2)
      | _ => none

end

/-- Python json.loads: the document must parse as one value with only
whitespace after it; any failure is an exception, modelled as none. -/
def jsonLoads (s : List Char) : Option JVal :=
  match jParseVal (s.length + 1) s with
  | some (v, r) => if jskipWs r = [] then some v else none
  | none => none

mutual

/-- Python str() of a parsed JSON value, to the fidelity the scripts
need: strings give their text and scalars their Python spelling; for the
nested containers (which the corpus's concept maps do not hold) a
repr-like rendering is used. -/
def jvalStr : JVal → List Char
  | .null => "None".data
  | .boolean true => "True".data
  | .boolean false => "False".data
  | .num lit => lit
  | .str s => s
  | .arr xs => '[' :: (joinSep ", ".data (jvalStrList xs) ++ [']'])
  | .obj kvs => '{' :: (joinSep ", ".data (jvalStrKvs kvs) ++ ['}'])

/-- Renderings of the values of a JSON array. -/
def jvalStrList : List JVal → List (List Char)
  | [] => []
  | x :: xs => jvalStr x :: jvalStrList xs

/-- Renderings of the members of a JSON object. -/
def jvalStrKvs : List (List Char × JVal) → List (List Char)
  | [] => []
  | (k, v) :: kvs => (k ++ ": ".data ++ jvalStr v) :: jvalStrKvs kvs

end

/-- Values a pandas CSV cell can present to the row processor: a missing
cell (NaN), a string, or an integer. -/
inductive CellVal where
  | na
  | str (s : List Char)
  | int (n : Int)

/-- Python str() of a cell value (NaN prints as nan). -/
def cellStr : CellVal → List Char
  | .na => "nan".data
  | .str s => s
  | .int n => (toString n).data

/-- Python digit-run to number. -/
def digitsToNat (d : List Char) : Nat :=
  d.foldl (fun a c => a * 10 + (c.toNat - 48)) 0

/-- Continuation of a PEP 515 digit run after at least one digit: an
underscore is consumed only when a digit follows it. -/
def udigitsAux : List Char → Nat → Option Nat
  | [], acc => some acc
  | '_' :: c :: t, acc =>
    if c.isDigit then udigitsAux t (acc * 10 + (c.toNat - 48)) else none
  | c :: t, acc =>
    if c.isDigit then udigitsAux t (acc * 10 + (c.toNat - 48)) else none

/-- A whole PEP 515 digit run - digits with single underscores strictly
between digits - to its value; anything else gives none. -/
def pyUDigits : List Char → Option Nat
  | [] => none
  | c :: t => if c.isDigit then udigitsAux t (c.toNat - 48) else none

/-- Python int(string): optional surrounding whitespace, an optional
sign and a nonempty digit run with PEP 515 underscore grouping. -/
def pyParseInt (s : List Char) : Option Int :=
  match pyStrip s with
  | '+' :: d => (pyUDigits d).map (fun n => (n : Int))
  | '-' :: d => (pyUDigits d).map (fun n => -(n : Int))
  | d => (pyUDigits d).map (fun n => (n : Int))

/-- Maximal PEP 515 digit run at the head of the input, after at least
one digit: value so far, digits seen and the rest. -/
def udigitScanAux : List Char → Nat → Nat → Nat × Nat × List Char
  | '_' :: c :: t, acc, n =>
    if c.isDigit then udigitScanAux t (acc * 10 + (c.toNat - 48)) (n + 1)
    else (acc, n, '_' :: c :: t)
  | c :: t, acc, n =>
    if c.isDigit then udigitScanAux t (acc * 10 + (c.toNat - 48)) (n + 1)
    else (acc, n, c :: t)
  | [], acc, n => (acc, n, [])

/-- Maximal PEP 515 digit run at the head of the input, possibly empty:
value, number of digits and the rest. -/
def udigitScan : List Char → Nat × Nat × List Char
  | [] => (0, 0, [])
  | c :: t => if c.isDigit then udigitScanAux t (c.toNat - 48) 1 else (0, 0, c :: t)

/-- Fuel-driven floor of the base-two logarithm, zero on zero. -/
def natLog2Aux : Nat → Nat → Nat
  | 0, _ => 0
  | fuel + 1, n => if n < 2 then 0 else natLog2Aux fuel (n / 2) + 1

/-- Floor of the base-two logarithm of a positive natural. -/
def natLog2 (n : Nat) : Nat := natLog2Aux n n

/-- Whether 2 to the integer power k is at most num / den, for a
positive rational num / den. -/
def twoPowLe (num den : Nat) (k : Int) : Bool :=
  if 0 ≤ k then den * 2 ^ k.toNat ≤ num else den ≤ num * 2 ^ (-k).toNat

/-- Floor of the base-two logarithm of the positive rational
num / den.  The true floor lies within one of the difference of the
operands' floors, so three probes settle it. -/
def ratLog2 (num den : Nat) : Int :=
  let g : Int := (natLog2 num : Int) - (natLog2 den : Int)
  if twoPowLe num den (g + 1) then g + 1
  else if twoPowLe num den g then g
  else g - 1

/-- num / den rounded to the nearest natural, ties to even. -/
def ratRoundHalfEven (num den : Nat) : Nat :=
  let q := num / den
  let r := num % den
  if 2 * r < den then q
  else if den < 2 * r then q + 1
  else if q % 2 = 0 then q else q + 1

/-- int() of the IEEE-754 double nearest to m * 10 ^ e10 (binary64
round-to-nearest, ties to even): none when the value rounds up to
infinity, so that int() raises OverflowError, and otherwise the double
truncated toward zero.  A magnitude below one half truncates to zero,
so subnormal scaling never matters. -/
def intOfRoundedDouble (m : Nat) (e10 : Int) : Option Int :=
  if m = 0 then some 0
  else
    let num := if 0 ≤ e10 then m * 10 ^ e10.toNat else m
    let den := if 0 ≤ e10 then 1 else 10 ^ (-e10).toNat
    let e2 := ratLog2 num den
    if e2 < -1 then some 0
    else if 1024 ≤ e2 then none
    else
      let q := e2 - 52
      let nd : Nat × Nat :=
        if 0 ≤ q then (num, den * 2 ^ q.toNat) else (num * 2 ^ (-q).toNat, den)
      let M := ratRoundHalfEven nd.1 nd.2
      let Me : Nat × Int := if M = 2 ^ 53 then (2 ^ 52, e2 + 1) else (M, e2)
      if 1024 ≤ Me.2 then none
      else if Me.2 - 52 < 0 then some ((Me.1 / 2 ^ (52 - Me.2).toNat : Nat) : Int)
      else some ((Me.1 * 2 ^ (Me.2 - 52).toNat : Nat) : Int)

/-- Python int(float(string)): strip, an optional sign, then either an
inf or nan literal (accepted by float() but rejected by int()) or a
decimal literal - PEP 515 digit runs around an optional point and an
optional exponent - parsed to the nearest IEEE-754 double and truncated
toward zero.  none covers every exception: text float() refuses, and
the infinities and nan that int() then refuses. -/
def pyParseFloatTrunc (s : List Char) : Option Int :=
  let t := pyStrip s
  let (neg, t1) : Bool × List Char :=
    match t with
    | '-' :: r => (true, r)
    | '+' :: r => (false, r)
    | r => (false, r)
  if pyLower t1 = "inf".data ∨ pyLower t1 = "infinity".data ∨ pyLower t1 = "nan".data then
    none
  else
    let is := udigitScan t1
    let fs : Nat × Nat × List Char :=
      match is.2.2 with
      | '.' :: r => udigitScan r
      | r => (0, 0, r)
    let es : Bool × Int × List Char :=
      match fs.2.2 with
      | 'e' :: r | 'E' :: r =>
        let sr : Int × List Char :=
          match r with
          | '-' :: q => (-1, q)
          | '+' :: q => (1, q)
          | q => (1, q)
        let xs := udigitScan sr.2
        if xs.2.1 = 0 then (false, 0, r) else (true, sr.1 * xs.1, xs.2.2)
      | r => (true, 0, r)
    if is.2.1 + fs.2.1 = 0 ∨ !es.1 ∨ es.2.2 ≠ [] then none
    else
      let m := is.1 * 10 ^ fs.2.1 + fs.1
      let e10 : Int := es.2.1 - fs.2.1
      (intOfRoundedDouble m e10).map (fun n => if neg then -n else n)

/-- Shorthand for writing tables of char lists. -/
def strs (l : List String) : List (List Char) := l.map String.data

/-- Sentence-ending punctuation of the splitter regex lookbehind. -/
def isSentEnd (c : Char) : Bool := c = '.' || c = '!' || c = '?'

/-- One character of the sentence splitter for the pattern
lookbehind-sentence-end-then-whitespace-run: the state is the finished
sentences, the current piece, and whether a delimiter run is being
consumed. -/
def splitSentStep (st : List (List Char) × List Char × Bool) (c : Char) :
    List (List Char) × List Char × Bool :=
  let (acc, cur, inDelim) := st
  if pyWs c then
    if inDelim then (acc, cur, true)
    else if cur ≠ [] ∧ isSentEnd (cur.getLastD ' ') then (acc ++ [cur], [], true)
    else (acc, cur ++ [c], false)
  else (acc, cur ++ [c], false)

/-- Both scripts' re.split on whitespace runs preceded by sentence
punctuation; like re.split it never returns an empty list. -/
def splitSentences (s : List Char) : List (List Char) :=
  let st := s.foldl splitSentStep ([], [], false)
  st.1 ++ [st.2.1]

/-- Python max(items, key=value) over a dict in insertion order: the
first pair of maximal value, none for an empty dict. -/
def pickMaxFirst : List (List Char × Nat) → Option (List Char × Nat)
  | [] => none
  | p :: rest => some (rest.foldl (fun best q => if best.2 < q.2 then q else best) p)

/-- Generic driver of a global re.sub with empty replacement: m tries a
match at the current position and returns the input after it; on
failure the scan advances one character.  Every matcher used consumes at
least one character, so fuel one beyond the length suffices. -/
def subScanAux (m : List Char → Option (List Char)) : Nat → List Char → List Char
  | 0, _ => []
  | _, [] => []
  | fuel + 1, c :: t =>
    match m (c :: t) with
    | some rest => subScanAux m fuel rest
    | none => c :: subScanAux m fuel t

/-- Global re.sub with empty replacement over the whole input. -/
def subScan (m : List Char → Option (List Char)) (s : List Char) : List Char :=
  subScanAux m (s.length + 1) s

namespace BN

/-- COMMON_SUBTOPICS of build_nelson_gpt_knowledge.py. -/
def COMMON_SUBTOPICS : List (List Char) := strs [
  "clinical features", "diagnosis", "treatment", "management", "epidemiology",
  "complications", "prevention", "prognosis", "pathogenesis", "screening",
  "evaluation", "therapy"]

/-- Heading-path splitter _split_path: normalise the > separators, split
on them, and keep the stripped nonempty segments. -/
def _split_path (path : List Char) : List (List Char) :=
  if path = [] then []
  else ((pySplitChar '>' (normGt path)).map pyStrip).filter (fun p => !p.isEmpty)

/-- Heading normaliser _clean_heading: strip, remove Chapter, Part-u,
Page and Section prefixes and a leading u bullet, collapse inner
whitespace runs, strip heading punctuation, and blank out lone
punctuation or single characters. -/
def _clean_heading (text : List Char) : List Char :=
  if text = [] then []
  else
    let s0 := pyStrip text
    let s1 := subChapterPrefix s0
    let s2 := subPartUPrefix s1
    let s3 := subWordNumPrefix "page".data s2
    let s4 := subWordNumPrefix "section".data s3
    let s5 := stripLeadingU s4
    let s6 := collapseWs s5
    let s7 := pyStrip (pyStripChars " :->»–—".data s6)
    if (¬s7.isEmpty ∧ s7.all (fun c => ¬c.isAlphanum ∨ c = '_')) ∨ s7.length ≤ 1 then []
    else s7

/-- Chapter extractor extract_chapter: a Part title if the part pattern
matches anywhere, else a Chapter title, else the first path segment,
with General Pediatrics as the fallback at every step. -/
def extract_chapter (path : List Char) : List Char :=
  if path = [] then "General Pediatrics".data
  else
    match bnPartSearch path with
    | some g =>
      let c := _clean_heading g
      if c = [] then "General Pediatrics".data else c
    | none =>
      match bnChapterSearch path with
      | some g =>
        let c := _clean_heading g
        if c = [] then "General Pediatrics".data else c
      | none =>
        match _split_path path with
        | p :: _ =>
          let c := _clean_heading p
          if c = [] then "General Pediatrics".data else c
        | [] => "General Pediatrics".data

/-- Section extractor extract_section: the second path segment when it
cleans to something, else the first, else the chapter. -/
def extract_section (path : List Char) : List Char :=
  let parts := _split_path path
  let sec := match parts with
    | _ :: p1 :: _ => _clean_heading p1
    | _ => []
  if sec ≠ [] then sec
  else
    let first := match parts with
      | p0 :: _ => _clean_heading p0
      | [] => []
    if first ≠ [] then first
    else extract_chapter path

/-- Keyword alternation of the first condition pattern of
_find_condition_in_text. -/
def condKeywords : List (List Char) := strs [
  "disease", "syndrome", "infection", "pneumonia", "asthma", "diabetes",
  "anemia", "seizure", "malaria", "measles", "hepatitis", "meningitis",
  "otitis", "arthritis", "abscess", "encephalitis", "nephritis",
  "dermatitis", "colitis", "appendicitis"]

/-- A capitalised word [A-Z][a-zA-Z]* at the head of the input. -/
def capWordAt : List Char → Option (List Char × List Char)
  | [] => none
  | c :: t =>
    if c.isUpper then
      let ls := t.takeWhile (·.isAlpha)
      some (c :: ls, t.drop ls.length)
    else none

/-- A capitalised lowercase-tail word [A-Z][a-z]+ at the head of the
input. -/
def capLowWordAt : List Char → Option (List Char × List Char)
  | [] => none
  | c :: t =>
    if c.isUpper then
      let ls := t.takeWhile (·.isLower)
      if ls.isEmpty then none else some (c :: ls, t.drop ls.length)
    else none

/-- One condition keyword with its closing word boundary at the head of
the input, alternatives tried in pattern order. -/
def matchCondKw (s : List Char) : Option (List Char) :=
  condKeywords.findSome? (fun kw =>
    if kw.isPrefixOf s then
      match s.drop kw.length with
      | [] => some kw
      | c :: _ => if reWordChar c then none else some kw
    else none)

/-- Closing step of the first condition pattern: whitespace then a
condition keyword; the captured words and the keyword are joined by one
space, as the source does with its two groups. -/
def condFinish (g r : List Char) : Option (List Char) :=
  if (r.takeWhile (pyWs ·)).isEmpty then none
  else (matchCondKw (r.dropWhile (pyWs ·))).map (fun kw => g ++ " ".data ++ kw)

/-- Greedy repetition of up to n further capitalised words before the
keyword, preferring longer runs and falling back as the regex engine
does. -/
def condExtend (g r : List Char) : Nat → Option (List Char)
  | 0 => condFinish g r
  | n + 1 =>
    let w := r.takeWhile (pyWs ·)
    if w.isEmpty then condFinish g r
    else
      match capWordAt (r.dropWhile (pyWs ·)) with
      | some (word, rest) =>
        match condExtend (g ++ w ++ word) rest n with
        | some res => some res
        | none => condFinish g r
      | none => condFinish g r

/-- First condition pattern of _find_condition_in_text at one position:
a chain of one to four capitalised words then a condition keyword. -/
def matchCondAt1 (s : List Char) : Option (List Char) :=
  match capWordAt s with
  | some (w0, rest) => condExtend w0 rest 3
  | none => none

/-- Unanchored scan of the first condition pattern. -/
def findCond1 : List Char → Option (List Char)
  | [] => none
  | c :: t =>
    match matchCondAt1 (c :: t) with
    | some g => some g
    | none => findCond1 t

/-- Closing word boundary after a captured run of words. -/
def bEnd : List Char → Bool
  | [] => true
  | c :: _ => !reWordChar c

/-- Greedy repetition of up to n further capitalised words of the second
condition pattern, with its closing word boundary. -/
def cond2Extend (g r : List Char) : Nat → Option (List Char)
  | 0 => if bEnd r then some g else none
  | n + 1 =>
    let w := r.takeWhile (pyWs ·)
    if w.isEmpty then (if bEnd r then some g else none)
    else
      match capLowWordAt (r.dropWhile (pyWs ·)) with
      | some (word, rest) =>
        match cond2Extend (g ++ w ++ word) rest n with
        | some res => some res
        | none => if bEnd r then some g else none
      | none => if bEnd r then some g else none

/-- Second condition pattern at one position, with its opening word
boundary expressed through the previous character's wordness. -/
def matchCondAt2 (prevW : Bool) (s : List Char) : Option (List Char) :=
  if prevW then none
  else
    match capLowWordAt s with
    | some (w0, rest) => cond2Extend w0 rest 2
    | none => none

/-- Unanchored scan of the second condition pattern. -/
def findCond2 : Bool → List Char → Option (List Char)
  | _, [] => none
  | prevW, c :: t =>
    match matchCondAt2 prevW (c :: t) with
    | some g => some g
    | none => findCond2 (reWordChar c) t

/-- Condition finder _find_condition_in_text: the first pattern's two
groups joined and stripped, else the second pattern's group stripped,
else empty. -/
def _find_condition_in_text (text : List Char) : List Char :=
  if text = [] then []
  else
    match findCond1 text with
    | some g => pyStrip g
    | none =>
      match findCond2 false text with
      | some g => pyStrip g
      | none => []

/-- Topic extractor extract_topic. -/
def extract_topic (path chunk_text : List Char) : List Char :=
  let parts := _split_path path
  let viaThird : List Char :=
    match parts with
    | _ :: p1 :: p2 :: _ =>
      let third := _clean_heading p2
      if third ≠ [] ∧ COMMON_SUBTOPICS.contains (pyLower third) then
        let cand := _clean_heading p1
        if cand ≠ [] then cand else third
      else if third ≠ [] then third
      else []
    | _ => []
  if viaThird ≠ [] then viaThird
  else
    let inferred := _find_condition_in_text chunk_text
    if inferred ≠ [] then inferred
    else extract_section path

/-- Python str.title() over ASCII, used for subtopic labels. -/
def pyTitle (s : List Char) : List Char :=
  (s.foldl (fun (st : List Char × Bool) c =>
    if c.isAlpha then (st.1 ++ [if st.2 then c.toLower else c.toUpper], true)
    else (st.1 ++ [c], false)) ([], false)).1

/-- Subtopic extractor extract_subtopic. -/
def extract_subtopic (path : List Char) : List Char :=
  let parts := _split_path path
  match parts with
  | _ :: _ :: _ :: p3 :: _ => _clean_heading p3
  | _ :: _ :: p2 :: [] =>
    let third := pyLower (_clean_heading p2)
    match COMMON_SUBTOPICS.find? (fun c => pyContains c third) with
    | some c => pyTitle c
    | none => []
  | _ => []

/-- Matcher of the downloaded-for-notice pattern at one position: the
ignore-case words downloaded and for separated by whitespace, then the
lazy dot-all run to the nearest following reserved. -/
def matchDownloadedAt (s : List Char) : Option (List Char) :=
  if pyLower (s.take 10) == "downloaded".data then
    let t := s.drop 10
    if (t.takeWhile (pyWs ·)).isEmpty then none
    else
      let t2 := t.dropWhile (pyWs ·)
      if pyLower (t2.take 3) == "for".data then findReservedAfter (t2.drop 3)
      else none
  else none
where
  findReservedAfter : List Char → Option (List Char)
    | [] => none
    | c :: t =>
      if pyLower ((c :: t).take 8) == "reserved".data then some ((c :: t).drop 8)
      else findReservedAfter t

/-- Matcher of the copyright-notice pattern at one position: the
parenthesised ignore-case c, whitespace, four digits, and the optional
rights-reserved phrase (the lazy dot run between them never expands,
because everything after it is optional). -/
def matchCopyrightAt (s : List Char) : Option (List Char) :=
  match s with
  | '(' :: c1 :: ')' :: t =>
    if c1.toLower = 'c' then
      let t2 := t.dropWhile (pyWs ·)
      let ds := t2.take 4
      if ds.length = 4 ∧ ds.all (·.isDigit) then
        let r := t2.drop 4
        if pyLower (r.take 16) == "rights reserved.".data then some (r.drop 16)
        else some r
      else none
    else none
  | _ => none

/-- Matcher of the bracketed-citation pattern at one position:
whitespace, an open bracket, a run of digits, commas and whitespace, and
a close bracket. -/
def matchBracketsAt (s : List Char) : Option (List Char) :=
  match s.dropWhile (pyWs ·) with
  | '[' :: r =>
    let run := r.takeWhile (fun c => c.isDigit || c = ',' || pyWs c)
    if run.isEmpty then none
    else
      match r.drop run.length with
      | ']' :: rest => some rest
      | _ => none
  | _ => none

/-- Matcher of the figure-reference pattern at one position. -/
def matchFigAt (s : List Char) : Option (List Char) :=
  match s.dropWhile (pyWs ·) with
  | '(' :: f :: 'i' :: 'g' :: r =>
    if f = 'F' || f = 'f' then
      let r1 := match r with
        | '.' :: q => q
        | q => q
      let r2 := r1.dropWhile (pyWs ·)
      let ds := r2.takeWhile (·.isDigit)
      if ds.isEmpty then none
      else
        match r2.drop ds.length with
        | ')' :: rest => some rest
        | _ => none
    else none
  | _ => none

/-- Matcher of the table-reference pattern at one position. -/
def matchTableAt (s : List Char) : Option (List Char) :=
  match s.dropWhile (pyWs ·) with
  | '(' :: tc :: 'a' :: 'b' :: 'l' :: 'e' :: r =>
    if tc = 'T' || tc = 't' then
      let r2 := r.dropWhile (pyWs ·)
      let ds := r2.takeWhile (·.isDigit)
      if ds.isEmpty then none
      else
        match r2.drop ds.length with
        | ')' :: rest => some rest
        | _ => none
    else none
  | _ => none

/-- Boilerplate remover _strip_notices: the five substitutions of the
source applied in order. -/
def _strip_notices (text : List Char) : List Char :=
  if text = [] then []
  else
    subScan matchTableAt (subScan matchFigAt (subScan matchBracketsAt
      (subScan matchCopyrightAt (subScan matchDownloadedAt text))))

/-- Marker substrings the front-matter detector looks for in the chunk
text. -/
def bnTextMarkers : List (List Char) := strs ["contributors", "preface", "acknowledg", "dedication"]

/-- Marker substrings the front-matter detector looks for in the heading
path. -/
def bnPathMarkers : List (List Char) := strs ["contributors", "preface", "front matter"]

/-- Degree-abbreviation alternation of the detector's findall, in
pattern order. -/
def degreeToks : List (List Char) := strs [
  "MD", "M.D.", "PhD", "Ph.D.", "MBBS", "FAAP", "FACS", "MSCE", "FRCP",
  "FRACP", "DO", "MPH", "MSc", "MBA"]

/-- Institution substrings counted by the detector. -/
def instToks : List (List Char) := strs [
  "university", "school of medicine", "hospital", "department of", "institute of"]

/-- Clinical terms whose occurrence counts gate the detector. -/
def bnClinicalSignalTerms : List (List Char) := strs [
  "diagnosis", "treatment", "management", "syndrome", "disease",
  "infection", "patient", "therapy", "prognosis", "signs", "symptoms"]

/-- Front-matter detector is_front_matter of
build_nelson_gpt_knowledge.py. -/
def is_front_matter (chunk_text path : List Char) (page_number : Int) : Bool :=
  if chunk_text = [] then false
  else
    let text := pyLower chunk_text
    let path_l := pyLower path
    if bnTextMarkers.any (fun t => pyContains t text)
        || bnPathMarkers.any (fun t => pyContains t path_l) then true
    else
      let deg_count := countToks degreeToks chunk_text
      let inst_count := (instToks.map (fun t => pyCount t text)).sum
      let clinical_signal := (bnClinicalSignalTerms.map (fun t => pyCount t text)).sum
      if (6 ≤ deg_count ∨ 6 ≤ inst_count) ∧ clinical_signal ≤ 1 ∧ page_number ≤ 50 then true
      else if pyContains "elsevier".data text ∧ page_number ≤ 10 then true
      else false

/-- Clinical hint substrings of the summary generator. -/
def bnSummaryTerms : List (List Char) := strs [
  "diagnosis", "treatment", "presents", "caused by", "characterized",
  "symptoms", "clinical", "patient", "disease", "syndrome", "management",
  "therapy", "prevention", "prognosis"]

/-- Collection loop of generate_summary over the first sentences:
stripped sentences of length at least 25 containing a clinical hint, and
the loop breaks at two. -/
def collectClinical : List (List Char) → Nat → List (List Char)
  | [], _ => []
  | sent :: rest, got =>
    if 2 ≤ got then []
    else
      let s := pyStrip sent
      if s.length < 25 then collectClinical rest got
      else if bnSummaryTerms.any (fun t => pyContains t (pyLower s)) then
        s :: collectClinical rest (got + 1)
      else collectClinical rest got

/-- Summary generator generate_summary of
build_nelson_gpt_knowledge.py. -/
def generate_summary (chunk_text : List Char) : List Char :=
  let text := pyStrip (normWsAll (_strip_notices chunk_text))
  if text = [] then []
  else
    let sentences := splitSentences text
    let clinical0 := collectClinical (sentences.take 12) 0
    let clinical := if clinical0 = [] then (sentences.take 2).filter (fun s => ¬(pyStrip s).isEmpty) else clinical0
    let summary0 := pyStrip (joinSep " ".data (clinical.take 2))
    let words := pySplitWs summary0
    let summary1 := if 150 < words.length then joinSep " ".data (words.take 150) else summary0
    if summary1 ≠ [] ∧ ¬isSentEnd (summary1.getLastD ' ') then summary1 ++ ['.']
    else summary1

/-- Category-keyword table of map_category, in declaration order. -/
def category_mapping : List (List Char × List (List Char)) := [
  ("Cardiology".data, strs ["heart", "cardiac", "cardiovascular"]),
  ("Infectious Diseases".data, strs ["infection", "bacterial", "viral", "fever", "sepsis", "antimicrobial"]),
  ("Gastroenterology".data, strs ["liver", "gastro", "digestive", "intestin", "hepatic", "biliary"]),
  ("Neurology".data, strs ["neuro", "brain", "seizure", "epilep", "mening", "encephal"]),
  ("Pulmonology".data, strs ["lung", "pulmonary", "respiratory", "asthma", "bronch", "pneumon"]),
  ("Nephrology".data, strs ["kidney", "renal", "urin", "neph"]),
  ("Hematology".data, strs ["blood", "anemia", "hemato", "thromb", "sickle"]),
  ("Oncology".data, strs ["cancer", "tumor", "oncol", "leukem", "lymphom"]),
  ("Endocrinology".data, strs ["endocrin", "diabetes", "hormone", "thyroid", "adrenal"]),
  ("Growth and Development".data, strs ["growth", "development", "puberty"]),
  ("Dermatology".data, strs ["skin", "dermat", "rash", "eczema"]),
  ("Immunology".data, strs ["immune", "antibody", "immunodef", "allerg"]),
  ("Orthopedics".data, strs ["bone", "fracture", "orthoped", "skeletal"]),
  ("Pharmacology".data, strs ["drug", "medication", "pharmac", "dose"]),
  ("Nutrition".data, strs ["nutrition", "feeding", "diet", "vitamin"]),
  ("Emergency Medicine".data, strs ["emergency", "trauma", "acute", "resusc"]),
  ("Surgery".data, strs ["surgery", "surgical", "operative"]),
  ("Neonatology".data, strs ["newborn", "neonat", "premature"])]

/-- Flattened concept-map terms of map_category: the parsed JSON
object's list values rendered to strings and its string values taken
whole; a parse failure on both attempts, or a non-object document, ends
in the handler that clears the terms. -/
def conceptTermsOf (mc : CellVal) : List (List Char) :=
  match mc with
  | .str s =>
    let st := pyStrip s
    if st = [] then []
    else
      let parsed := match jsonLoads st with
        | some v => some v
        | none => jsonLoads (st.map (fun c => if c = '\'' then '"' else c))
      match parsed with
      | some (.obj kvs) =>
        kvs.foldl (fun acc kv =>
          match kv.2 with
          | .arr xs => acc ++ xs.map jvalStr
          | .str s2 => acc ++ [s2]
          | _ => acc) []
      | _ => []
  | _ => []

/-- Lowercased join of the flattened concept-map terms. -/
def conceptTextOf (mc : CellVal) : List Char :=
  pyLower (joinSep " ".data (conceptTermsOf mc))

/-- Per-category score of map_category: occurrences in the lowercased
text plus twice the occurrences in the concept text. -/
def bnCatScore (kws : List (List Char)) (text_lower concept_text : List Char) : Nat :=
  (kws.map (fun kw => pyCount kw text_lower)).sum
    + 2 * (kws.map (fun kw => pyCount kw concept_text)).sum

/-- Category classifier map_category of build_nelson_gpt_knowledge.py:
keep the positive scores in table order and take the first maximum, else
fall back to the chapter or the fixed default. -/
def map_category (mc : CellVal) (chunk_text chapter : List Char) : List Char :=
  let concept_text := conceptTextOf mc
  let text_lower := pyLower chunk_text
  let scores := category_mapping.filterMap (fun ck =>
    let score := bnCatScore ck.2 text_lower concept_text
    if 0 < score then some (ck.1, score) else none)
  match pickMaxFirst scores with
  | some p => p.1
  | none => if chapter = [] then "General Pediatrics".data else chapter

/-- Stopword set of clean_keywords. -/
def bnStopwords : List (List Char) := strs [
  "professor", "md", "medicine", "university", "hospital", "childrens",
  "center", "college", "director", "associate", "school", "wisconsin",
  "pennsylvania", "philadelphia", "boston", "california", "massachusetts",
  "york", "elsevier", "textbook", "his", "chair", "department", "division",
  "editor", "edition", "authors", "chapter", "part", "page", "table", "figure",
  "contributor", "contributors", "preface", "acknowledgments", "acknowledgements"]

/-- Anatomy-term set of clean_keywords. -/
def anatomy_terms : List (List Char) := strs [
  "heart", "liver", "kidney", "brain", "lung", "skin", "bone", "blood",
  "intestine", "stomach", "pancreas", "thyroid", "adrenal", "spleen"]

/-- Literal alternatives of the medical-pattern regex of clean_keywords;
a search succeeds when any alternative occurs as a substring. -/
def bnMedSubstrings : List (List Char) := strs [
  "itis", "osis", "emia", "algia", "pathy", "opathy", "oma", "virus",
  "bacter", "fung", "fungal", "neuro", "cardio", "hepato", "renal",
  "pulmo", "dermat", "ortho", "endocr", "immun", "gastro", "hemat",
  "oncol", "sepsis", "shock", "fever", "rash", "seizure", "asthma",
  "pneumon", "arthritis", "abscess", "colitis", "nephritis", "dermatitis",
  "otitis", "meningit", "encephal", "diabet", "thyroid", "adrenal",
  "hormone", "anemia", "transplant", "chemotherapy", "antibiotic",
  "antiviral", "antifungal", "vaccine", "immunization", "hypertension",
  "hypotension"]

/-- Unit and abbreviation substrings that excuse a digit in a keyword. -/
def bnUnitSubstrings : List (List Char) := strs [
  "mg", "mcg", "mmhg", "%", "h1n1", "h5n1", "g6pd", "b12"]

/-- Three-letter medical abbreviations kept despite their length. -/
def bnThreeLetterKeep : List (List Char) := strs ["hiv", "hbv", "hcv", "iga", "igg", "ige"]

/-- Search of the medical-pattern regex on a lowercased keyword. -/
def bnMatchesMed (low : List Char) : Bool :=
  bnMedSubstrings.any (fun p => pyContains p low)

/-- Keyword filtering loop of clean_keywords, carrying the seen set and
the result; the loop breaks right after the tenth append. -/
def cleanKeywordsAux : List (List Char) → List (List Char) → List (List Char) → List (List Char)
  | [], _, res => res
  | kw :: rest, seen, res =>
    if kw = [] then cleanKeywordsAux rest seen res
    else
      let low := pyLower kw
      if bnStopwords.contains low then cleanKeywordsAux rest seen res
      else if low.length < 3 ∧ ¬bnThreeLetterKeep.contains low then cleanKeywordsAux rest seen res
      else if (low.any (·.isDigit)) ∧ ¬low.contains '-' ∧ ¬bnUnitSubstrings.any (fun p => pyContains p low) then
        cleanKeywordsAux rest seen res
      else if low.contains ' ' ∧ ¬bnMatchesMed low ∧ ¬anatomy_terms.contains low then
        cleanKeywordsAux rest seen res
      else if ¬bnMatchesMed low ∧ ¬anatomy_terms.contains low then cleanKeywordsAux rest seen res
      else if seen.contains low then cleanKeywordsAux rest seen res
      else
        let res2 := res ++ [kw]
        if 10 ≤ res2.length then res2
        else cleanKeywordsAux rest (seen ++ [low]) res2

/-- Token list clean_keywords builds before joining. -/
def cleanKeywordsTokensStr (s : List Char) : List (List Char) :=
  if pyStrip s = [] then []
  else cleanKeywordsAux ((pySplitChar ',' s).map pyStrip) [] []

/-- Token list of clean_keywords for a raw cell. -/
def cleanKeywordsTokens : CellVal → List (List Char)
  | .na => []
  | .str s => cleanKeywordsTokensStr s
  | .int n => cleanKeywordsTokensStr (toString n).data

/-- Keyword cleaner clean_keywords of build_nelson_gpt_knowledge.py. -/
def clean_keywords (v : CellVal) : List Char :=
  joinSep ",".data (cleanKeywordsTokens v)

/-- Page-number coercion _to_int: NaN gives zero, int cells pass
through, strings go through int() then int(float()) with zero for
every failure. -/
def _to_int : CellVal → Int
  | .na => 0
  | .int n => n
  | .str s =>
    match pyParseInt s with
    | some n => n
    | none =>
      match pyParseFloatTrunc s with
      | some n => n
      | none => 0

/-- Input row of process_row: the five columns it reads, each a raw CSV
cell. -/
structure RowIn where
  section_heading_path : CellVal
  chunk_text : CellVal
  page_number : CellVal
  medical_concepts : CellVal
  keywords : CellVal

/-- Output record of process_row.  The Python section key is called sect
here because section is a Lean keyword. -/
structure EnrichedRow where
  chapter : List Char
  sect : List Char
  topic : List Char
  subtopic : List Char
  content_summary : List Char
  page_number : Int
  category : List Char
  keywords : List Char
  chunk_text : List Char
deriving DecidableEq

/-- Python str(row.get(field) or empty): falsy cells print empty, and a
NaN cell is truthy and prints as nan. -/
def pyOrEmptyStr : CellVal → List Char
  | .na => "nan".data
  | .str s => s
  | .int n => if n = 0 then [] else (toString n).data

/-- Row assembler process_row of build_nelson_gpt_knowledge.py.  The
outer exception handler of the source is unreachable here: every
operation it guards is total in this model, each inner failure already
being replaced by its local default. -/
def process_row (row : RowIn) : EnrichedRow :=
  let path := pyOrEmptyStr row.section_heading_path
  let chunk_text := pyOrEmptyStr row.chunk_text
  let page_number := _to_int row.page_number
  let front := is_front_matter chunk_text path page_number
  let chapter := extract_chapter path
  if front then
    { chapter := chapter
      sect := "Front Matter".data
      topic := if pyContains "contributor".data (pyLower chunk_text) then "Contributors".data
        else "Front Matter".data
      subtopic := []
      content_summary := "Contributors and affiliations; non-clinical content.".data
      page_number := page_number
      category := "General Pediatrics".data
      keywords := []
      chunk_text := chunk_text }
  else
    let sect := (let s := extract_section path
      if s ≠ [] then s else if chapter ≠ [] then chapter else "General Pediatrics".data)
    { chapter := chapter
      sect := sect
      topic := (let t := extract_topic path chunk_text
        if t ≠ [] then t else sect)
      subtopic := extract_subtopic path
      content_summary := (let g := generate_summary chunk_text
        if g ≠ [] then g else chunk_text.take 150 ++ ['.'])
      page_number := page_number
      category := map_category row.medical_concepts chunk_text chapter
      keywords := clean_keywords row.keywords
      chunk_text := chunk_text }

/-- Main loop of the script over the parsed rows: each processed record
is appended to the output list in order (batching only concatenates
these appends). -/
def processRows (rows : List RowIn) : List EnrichedRow :=
  rows.foldl (fun acc row => acc ++ [process_row row]) []

end BN

namespace PS

/-- Parsed heading fields of parse_heading_path.  The Python section key
is called sect here because section is a Lean keyword. -/
structure ParsedHeading where
  chapter : List Char
  sect : List Char
  topic : List Char
  subtopic : List Char
deriving DecidableEq

/-- Stripped, nonempty, non-Page segments of a heading path, as
parse_heading_path prepares them. -/
def partsOf (ps : List Char) : List (List Char) :=
  (((pySplitChar '>' ps).map pyStrip).filter (fun p => ¬p.isEmpty)).filter
    (fun p => ¬rePageMatches p)

/-- One segment of parse_heading_path's loop: a Part match resets the
part title, a Chapter match resets the chapter title, and anything else
joins the residual segments. -/
def headFoldStep (st : List Char × List Char × List (List Char)) (p : List Char) :
    List Char × List Char × List (List Char) :=
  match rePartMatch p with
  | some g => (pyStrip g, st.2.1, st.2.2)
  | none =>
    match reChapterMatch p with
    | some g2 => (st.1, pyStrip (stripLeadingU (pyStrip g2)), st.2.2)
    | none => (st.1, st.2.1, st.2.2 ++ [p])

/-- Part title of the last Part-matching segment, if any. -/
def lastPartTitle (parts : List (List Char)) : Option (List Char) :=
  parts.foldl (fun acc p =>
    match rePartMatch p with
    | some g => some (pyStrip g)
    | none => acc) none

/-- Heading parser parse_heading_path of processing_script.py: a missing
or blank path gives all-empty fields; otherwise the segments are folded
into part and chapter titles and residual topic segments. -/
def parse_heading_path (path_str : Option (List Char)) : ParsedHeading :=
  match path_str with
  | none => ⟨[], [], [], []⟩
  | some ps =>
    if pyStrip ps = [] then ⟨[], [], [], []⟩
    else
      let st := (partsOf ps).foldl headFoldStep ([], [], [])
      let part_title := st.1
      let chapter_title := st.2.1
      let rest := st.2.2
      let chap := pyStrip (stripLeadingU (if part_title ≠ [] then part_title else chapter_title))
      let sect :=
        if part_title ≠ [] ∧ chapter_title ≠ [] then chapter_title
        else if chapter_title ≠ [] then chapter_title
        else if part_title ≠ [] then part_title
        else []
      let clean_rest := (rest.map (fun r => pyStrip (stripSectionPrefix r))).filter
        (fun r => r ≠ [] ∧ r ≠ chapter_title ∧ r ≠ part_title)
      { chapter := chap
        sect := sect
        topic := clean_rest.headD []
        subtopic := match clean_rest with
          | _ :: s :: _ => s
          | _ => [] }

/-- Category-keyword table CATEGORY_KEYWORDS of processing_script.py, in
declaration order. -/
def CATEGORY_KEYWORDS : List (List Char × List (List Char)) := [
  ("Cardiology".data, strs ["cardiac", "heart", "cardiovascular", "arrhythmia", "endocarditis", "cyanotic", "murmur", "congenital heart", "cardiomyopathy", "hypertension"]),
  ("Growth".data, strs ["growth", "stature", "height", "weight", "z-score", "anthropometry"]),
  ("Development".data, strs ["development", "milestone", "language development", "behavior", "neurodevelopment"]),
  ("Infectious Diseases".data, strs ["infection", "infectious", "bacterial", "viral", "fever", "sepsis", "meningitis", "pneumonia", "mycobacterium", "tuberculosis", "malaria", "hiv", "influenza", "candida", "plague", "anthrax", "tularemia", "smallpox", "mpox", "ebola", "rsv", "measles", "rubella", "mumps"]),
  ("Gastroenterology".data, strs ["gastro", "liver", "hepatic", "biliary", "hepatitis", "bowel", "intestine", "malabsorption", "celiac", "ulcer", "diarrhea", "vomiting"]),
  ("Neurology".data, strs ["neurology", "seizure", "epilepsy", "cerebral", "brain", "neuromuscular", "encephalitis", "cerebellar", "headache", "stroke", "dystonia"]),
  ("Pulmonology".data, strs ["lung", "pulmonary", "asthma", "bronchial", "respiratory", "bronchiolitis", "bronchopulmonary", "hypoxemia"]),
  ("Nephrology".data, strs ["kidney", "renal", "nephro", "hematuria", "proteinuria", "glomerular", "tubular"]),
  ("Hematology".data, strs ["anemia", "hemoglobin", "hemostasis", "bleeding", "hematologic", "hemophilia", "vwd", "leukemia"]),
  ("Oncology".data, strs ["oncology", "tumor", "cancer", "malignancy", "sarcoma", "lymphoma", "neoplasm"]),
  ("Endocrinology".data, strs ["endocrine", "thyroid", "adrenal", "pituitary", "diabetes", "insulin", "puberty", "precocity"]),
  ("Genetics".data, strs ["genetic", "chromosome", "trisomy", "genomic", "dysmorph", "inherit"]),
  ("Dermatology".data, strs ["skin", "derm", "eczema", "dermatitis", "rash", "lesion"]),
  ("Immunology".data, strs ["immunology", "immune", "immunodeficiency", "antibody", "t-cell", "b-cell"]),
  ("Rheumatology".data, strs ["arthritis", "lupus", "vasculitis", "rheumatic", "autoimmune"]),
  ("Orthopedics".data, strs ["fracture", "orthopedic", "bone", "scoliosis", "osteomyelitis"]),
  ("Pharmacology".data, strs ["drug", "dose", "dosing", "pharmacology", "toxicology", "toxicity", "antibiotic", "analgesic"]),
  ("Nutrition".data, strs ["nutrition", "nutritional", "diet", "feeding", "vitamin", "micronutrient"]),
  ("Emergency Medicine".data, strs ["emergency", "resuscitation", "shock", "trauma", "toxicant", "poisoning", "antidote"]),
  ("Surgery".data, strs ["surgery", "operative", "postoperative", "appendicitis", "hernia", "procedure"]),
  ("Neonatology".data, strs ["neonate", "newborn", "premature", "nicu", "apnea", "meconium"])]

/-- Stopword set STOPWORDS of processing_script.py (the source splits
one long string; duplicates are harmless in a membership test). -/
def PS_STOPWORDS : List (List Char) := strs [
  "professor", "md", "medicine", "university", "hospital", "childrens", "children",
  "child", "center", "centre", "division", "department", "college", "school",
  "associate", "assistant", "director", "chair", "wisconsin", "pennsylvania",
  "philadelphia", "boston", "california", "ohio", "colorado", "chicago", "new",
  "york", "north", "carolina", "washington", "texas", "florida", "alabama",
  "indiana", "illinois", "michigan", "arizona", "oregon", "utah", "maryland",
  "massachusetts", "york", "los", "angeles", "seattle", "denver", "cincinnati",
  "aurora", "milwaukee", "philadelphia", "pennsylvania", "program", "research",
  "study", "studies", "clinic", "medical", "health", "science", "sciences",
  "faculty", "emeritus", "chief", "fellow", "fellowship", "adjunct", "faculty",
  "of", "at", "and", "the", "a", "an", "for", "in", "on", "with", "by", "from",
  "to", "as", "jr", "sr", "phd", "mph", "ms", "msc", "do", "mbbs", "mbbchir",
  "facs", "faap", "frcp", "frcpc", "frcog", "fsar", "msce", "mscs", "msp",
  "mhs", "mba", "mdphd", "mscphd"]

/-- Generic non-medical noise set NON_MED_GENERIC. -/
def NON_MED_GENERIC : List (List Char) := strs [
  "medicine", "medical", "professor", "university", "hospital", "department",
  "division", "center", "associate", "assistant", "director", "college",
  "school", "program", "research", "study", "studies", "clinic", "health",
  "science", "sciences", "chair", "emeritus", "fellow", "fellowship", "adjunct"]

/-- Clinical hint phrases CLINICAL_HINTS of the sentence scorer. -/
def CLINICAL_HINTS : List (List Char) := strs [
  "presents with", "characterized by", "features include", "symptoms include",
  "diagnosed by", "diagnosis", "management", "treatment", "therapy",
  "indications", "contraindications", "risk factors", "prognosis",
  "complications", "caused by", "most common", "evaluation", "screening",
  "prevention"]

/-- Alternatives of the scorer's word-bounded regex, with the optional-s
alternative expanded greedily in place. -/
def psScoreToks : List (List Char) := strs [
  "fever", "pain", "cough", "diagnos", "treat", "manage", "therapy",
  "antibiotic", "ultrasound", "imaging", "labs", "lab", "criteria", "presents"]

/-- Sentence scorer of processing_script's generate_summary. -/
def psScore (s : List Char) : Nat :=
  let s_l := pyLower s
  let hintScore := 3 * (CLINICAL_HINTS.filter (fun h => pyContains h s_l)).length
  let reScore := if reSearchAnyWordBounded psScoreToks s_l then 2 else 0
  let words := (pySplitWs s).length
  hintScore + reScore + (if 8 ≤ words ∧ words ≤ 35 then 1 else 0)

/-- Stable descending insertion: an element goes before the first
element of no larger score, so equal scores keep their original order,
as Python's stable sorted with reverse does. -/
def insertDesc (f : List Char → Nat) (x : List Char) : List (List Char) → List (List Char)
  | [] => [x]
  | y :: ys => if f y ≤ f x then x :: y :: ys else y :: insertDesc f x ys

/-- Stable descending sort by score. -/
def sortDesc (f : List Char → Nat) (l : List (List Char)) : List (List Char) :=
  l.foldr (insertDesc f) []

/-- Search for the second summary sentence among the remaining ranked
sentences. -/
def findSecond (first : List Char) : List (List Char) → Option (List Char)
  | [] => none
  | s :: rest =>
    if s ≠ first ∧ (pySplitWs (first ++ " ".data ++ s)).length ≤ 60 then some s
    else findSecond first rest

/-- Summary generator generate_summary of processing_script.py (the
learning-objectives argument is accepted and unused, as in the source;
the rows it reads are always strings because the frame is loaded with
dtype str). -/
def generate_summary (chunk_text _learning_obj : List Char) : List Char :=
  if pyStrip chunk_text = [] then []
  else
    let sentences := splitSentences (pyStrip chunk_text)
    let ranked := sortDesc psScore sentences
    match ranked with
    | [] => (joinSep " ".data (sentences.take 2)).take 800
    | first :: restR =>
      let second := match findSecond first restR with
        | some s => s
        | none => []
      let summary0 := pyStrip (pyStrip first ++ (if second ≠ [] then " ".data ++ pyStrip second else []))
      let words := pySplitWs summary0
      if 150 < words.length then
        pyRstrip ",;".data (joinSep " ".data (words.take 150)) ++ ['.']
      else summary0

/-- Score update of the defaultdict: an existing category is incremented
in place, a new one is appended, so the dict's insertion order is the
order categories first scored. -/
def updScores (scores : List (List Char × Nat)) (cat : List Char) (delta : Nat) :
    List (List Char × Nat) :=
  if scores.any (fun p => p.1 == cat) then
    scores.map (fun p => if p.1 == cat then (p.1, p.2 + delta) else p)
  else scores ++ [(cat, delta)]

/-- Chapter phase of map_category: two points per keyword occurring in
the lowercased chapter name. -/
def psChapterPhase (chap_l : List Char) : List (List Char × Nat) :=
  CATEGORY_KEYWORDS.foldl (fun sc ck =>
    ck.2.foldl (fun sc2 kw => if pyContains kw chap_l then updScores sc2 ck.1 2 else sc2) sc) []

/-- Concept phase of map_category: three points per keyword contained in
each term of each list value of the parsed concept map; a parse failure
or a non-object document adds nothing. -/
def psConceptPhase (scores : List (List Char × Nat)) (mc : List Char) :
    List (List Char × Nat) :=
  if pyStrip mc = [] then scores
  else
    match jsonLoads mc with
    | some (.obj kvs) =>
      kvs.foldl (fun sc kv =>
        match kv.2 with
        | .arr xs =>
          xs.foldl (fun sc2 term =>
            let tl := pyLower (jvalStr term)
            CATEGORY_KEYWORDS.foldl (fun sc3 ck =>
              ck.2.foldl (fun sc4 kw =>
                if pyContains kw tl then updScores sc4 ck.1 3 else sc4) sc3) sc2) sc
        | _ => sc) scores
    | _ => scores

/-- Text phase of map_category: one point per keyword found
word-bounded in the lowercased chunk text. -/
def psTextPhase (scores : List (List Char × Nat)) (text_l : List Char) :
    List (List Char × Nat) :=
  CATEGORY_KEYWORDS.foldl (fun sc ck =>
    ck.2.foldl (fun sc2 kw =>
      if reSearchWordBounded kw text_l then updScores sc2 ck.1 1 else sc2) sc) scores

/-- Fallback chapter-substring table of map_category, in declaration
order. -/
def psFallbackMap : List (List Char × List Char) :=
  [("digestive".data, "Gastroenterology".data),
   ("cardio".data, "Cardiology".data),
   ("infect".data, "Infectious Diseases".data),
   ("respir".data, "Pulmonology".data),
   ("lung".data, "Pulmonology".data),
   ("kidney".data, "Nephrology".data),
   ("renal".data, "Nephrology".data),
   ("growth".data, "Growth".data),
   ("develop".data, "Development".data)]

/-- Scores dict of map_category after its three phases, in insertion
order. -/
def psScores (med_concepts_raw chunk_text chapter_name : List Char) :
    List (List Char × Nat) :=
  psTextPhase (psConceptPhase (psChapterPhase (pyLower chapter_name)) med_concepts_raw)
    (pyLower chunk_text)

/-- Category classifier map_category of processing_script.py: the first
maximal entry of the scores dict in insertion order, else the fallback
table on the chapter name, else empty. -/
def map_category (med_concepts_raw chunk_text chapter_name : List Char) : List Char :=
  let scores := psScores med_concepts_raw chunk_text chapter_name
  match scores with
  | [] =>
    match psFallbackMap.find? (fun kv => pyContains kv.1 (pyLower chapter_name)) with
    | some kv => kv.2
    | none => []
  | _ =>
    match pickMaxFirst scores with
    | some p => p.1
    | none => []

/-- Characters the keyword cleaner's character-class substitution
keeps. -/
def psAllowedChar (c : Char) : Bool :=
  ('a' ≤ c && c ≤ 'z') || c.isDigit || c = ' ' || c = '-' || c = '/' || c = '(' || c = ')'

/-- Token normalisation of processing_script's clean_keywords:
lowercase, drop disallowed characters, strip. -/
def psCleanTok (t : List Char) : List Char :=
  pyStrip ((pyLower t).filter psAllowedChar)

/-- Literal alternatives of the medical regex of processing_script's
clean_keywords. -/
def psMedSubstrings : List (List Char) := strs [
  "itis", "osis", "emia", "oma", "pathy", "algia", "ectomy", "virus",
  "bacteria", "fever", "anemia", "ulcer", "asthma", "hepat", "nephro",
  "cardio", "neuro", "derma", "renal", "liver", "lung", "heart", "bone",
  "fracture", "syndrome", "disease", "infection", "sepsis", "shock",
  "cyanosis", "diarrhea", "vomit", "cough", "rash", "endocarditis",
  "meningitis", "pneum", "arthritis", "diabetes", "thyroid", "hormone",
  "antibiotic", "vaccine", "immun"]

/-- Filtering loop of processing_script's clean_keywords. -/
def psCleanAux : List (List Char) → List (List Char) → List (List Char) → List (List Char)
  | [], _, clean => clean
  | t :: rest, seen, clean =>
    let tl := psCleanTok t
    if tl = [] ∨ PS_STOPWORDS.contains tl ∨ NON_MED_GENERIC.contains tl then
      psCleanAux rest seen clean
    else if tl.length ≤ 2 then psCleanAux rest seen clean
    else if psMedSubstrings.any (fun p => pyContains p tl) ∨ tl.contains ' ' ∨ tl.contains '-' then
      if seen.contains tl then psCleanAux rest seen clean
      else psCleanAux rest (seen ++ [tl]) (clean ++ [tl])
    else psCleanAux rest seen clean

/-- Token list of processing_script's clean_keywords, capped at ten
after the loop. -/
def psCleanTokens (kw_raw : List Char) : List (List Char) :=
  if pyStrip kw_raw = [] then []
  else (psCleanAux ((pySplitChar ',' kw_raw).map pyStrip) [] []).take 10

/-- Keyword cleaner clean_keywords of processing_script.py. -/
def clean_keywords (kw_raw : List Char) : List Char :=
  joinSep ",".data (psCleanTokens kw_raw)

end PS

/-- A word of the whitespace splitter is nonempty and free of
whitespace. -/
def cleanWord (w : List Char) : Prop := w ≠ [] ∧ ∀ c ∈ w, pyWs c = false

theorem toNat_ofNat_valid (n : Nat) (h : n.isValidChar) : (Char.ofNat n).toNat = n := by
  unfold Char.ofNat
  rw [dif_pos h]
  unfold Char.ofNatAux Char.toNat
  show UInt32.toNat _ = n
  simp [UInt32.toNat]

theorem toLower_idem (c : Char) : Char.toLower (Char.toLower c) = Char.toLower c := by
  unfold Char.toLower
  by_cases h : 65 ≤ c.toNat ∧ c.toNat ≤ 90
  · have hv : (c.toNat + 32).isValidChar := Or.inl (by omega)
    simp only [if_pos h, toNat_ofNat_valid _ hv, ge_iff_le]
    rw [if_neg (by omega)]
  · simp only [if_neg h, ge_iff_le]

theorem pyLower_idem (s : List Char) : pyLower (pyLower s) = pyLower s := by
  simp [pyLower, Function.comp, toLower_idem]

theorem pyContains_nil (pat : List Char) (h : pat ≠ []) : pyContains pat [] = false := by
  simp [pyContains, List.isEmpty_iff, h]

theorem pyCountAux_pos_of_contains (pat : List Char) (hp : pat ≠ []) :
    ∀ (fuel : Nat) (hay : List Char), hay.length < fuel →
    pyContains pat hay = true → 1 ≤ pyCountAux pat fuel hay := by
  intro fuel
  induction fuel with
  | zero =>
    intro hay hlen
    omega
  | succ f ih =>
    intro hay hlen hc
    match hay with
    | [] =>
      rw [pyContains_nil pat hp] at hc
      exact absurd hc (by simp)
    | c :: t =>
      rw [pyContains] at hc
      rw [pyCountAux]
      have hpe : pat.isEmpty = false := by simpa [List.isEmpty_iff] using hp
      rw [hpe]
      simp only [Bool.or_eq_true] at hc
      simp only [Bool.false_eq_true, if_false]
      rcases hc with hc | hc
      · rw [if_pos hc]
        omega
      · split
        · omega
        · refine ih t ?_ hc
          simp only [List.length_cons] at hlen
          omega

theorem pyCount_pos_of_contains (pat : List Char) (hp : pat ≠ [])
    (hay : List Char) (h : pyContains pat hay = true) : 1 ≤ pyCount pat hay := by
  exact pyCountAux_pos_of_contains pat hp (hay.length + 1) hay (by omega) h

theorem pyContains_ne_nil_hay (pat hay : List Char) (hp : pat ≠ [])
    (h : pyContains pat hay = true) : hay ≠ [] := by
  intro he
  subst he
  rw [pyContains_nil pat hp] at h
  exact absurd h (by simp)

theorem pyParseInt_underscores :
    pyParseInt "1_0".data = some 10
    ∧ pyParseInt " -4_2 ".data = some (-42)
    ∧ pyParseInt "1__0".data = none
    ∧ pyParseInt "_10".data = none
    ∧ pyParseInt "10_".data = none
    ∧ pyParseInt "3.7".data = none := by
  refine ⟨rfl, rfl, rfl, rfl, rfl, rfl⟩

theorem pyParseFloatTrunc_examples :
    pyParseFloatTrunc "1_0".data = some 10
    ∧ pyParseFloatTrunc "1_0.5e1_0".data = some 105000000000
    ∧ pyParseFloatTrunc "3.7".data = some 3
    ∧ pyParseFloatTrunc "-2.5".data = some (-2)
    ∧ pyParseFloatTrunc "0.9999999999999999999".data = some 1
    ∧ pyParseFloatTrunc "1e23".data = some 99999999999999991611392
    ∧ pyParseFloatTrunc "9007199254740993.0".data = some 9007199254740992
    ∧ pyParseFloatTrunc "1e309".data = none
    ∧ pyParseFloatTrunc "1.7976931348623159e308".data = none
    ∧ pyParseFloatTrunc "inf".data = none
    ∧ pyParseFloatTrunc "-Infinity".data = none
    ∧ pyParseFloatTrunc "nan".data = none
    ∧ pyParseFloatTrunc "5e-324".data = some 0
    ∧ pyParseFloatTrunc "N/A".data = none := by
  refine ⟨rfl, rfl, rfl, rfl, rfl, rfl, rfl, rfl, rfl, rfl, rfl, rfl, rfl, rfl⟩

theorem to_int_examples :
    BN._to_int (CellVal.str "1_0".data) = 10
    ∧ BN._to_int (CellVal.str "1e309".data) = 0
    ∧ BN._to_int (CellVal.str " 3.7 ".data) = 3
    ∧ BN._to_int (CellVal.str "xi".data) = 0
    ∧ BN._to_int CellVal.na = 0 := by
  refine ⟨rfl, rfl, rfl, rfl, rfl⟩

theorem processRows_eq_map (rows : List BN.RowIn) :
    BN.processRows rows = rows.map BN.process_row := by
  have aux : ∀ (l : List BN.RowIn) (acc : List BN.EnrichedRow),
      l.foldl (fun a row => a ++ [BN.process_row row]) acc = acc ++ l.map BN.process_row := by
    intro l
    induction l with
    | nil => simp
    | cons r t ih =>
      intro acc
      simp only [List.foldl_cons, List.map_cons, ih]
      simp
  simpa using aux rows []

theorem pickMaxFirst_fold_spec (l : List (List Char × Nat)) (p0 : List Char × Nat) :
    (l.foldl (fun best q => if best.2 < q.2 then q else best) p0 = p0
      ∨ l.foldl (fun best q => if best.2 < q.2 then q else best) p0 ∈ l)
    ∧ p0.2 ≤ (l.foldl (fun best q => if best.2 < q.2 then q else best) p0).2
    ∧ ∀ q ∈ l, q.2 ≤ (l.foldl (fun best q => if best.2 < q.2 then q else best) p0).2 := by
  induction l generalizing p0 with
  | nil => simp
  | cons a t ih =>
    simp only [List.foldl_cons]
    by_cases h : p0.2 < a.2
    · rw [if_pos h]
      rcases ih a with ⟨hmem, hle, hall⟩
      refine ⟨?_, ?_, ?_⟩
      · rcases hmem with h1 | h1
        · right
          rw [h1]
          exact List.mem_cons_self a t
        · right
          exact List.mem_cons_of_mem a h1
      · omega
      · intro q hq
        rcases List.mem_cons.mp hq with rfl | hq
        · exact hle
        · exact hall q hq
    · rw [if_neg h]
      rcases ih p0 with ⟨hmem, hle, hall⟩
      refine ⟨?_, hle, ?_⟩
      · rcases hmem with h1 | h1
        · left
          exact h1
        · right
          exact List.mem_cons_of_mem a h1
      · intro q hq
        rcases List.mem_cons.mp hq with rfl | hq
        · omega
        · exact hall q hq

theorem pickMaxFirst_spec (l : List (List Char × Nat)) (p : List Char × Nat)
    (h : pickMaxFirst l = some p) : p ∈ l ∧ ∀ q ∈ l, q.2 ≤ p.2 := by
  match l, h with
  | a :: t, h =>
    rw [pickMaxFirst] at h
    rcases pickMaxFirst_fold_spec t a with ⟨hmem, hle, hall⟩
    have hp : p = t.foldl (fun best q => if best.2 < q.2 then q else best) a := by
      exact (Option.some.injEq _ _).mp h.symm
    constructor
    · rcases hmem with h1 | h1
      · rw [hp, h1]
        exact List.mem_cons_self a t
      · rw [hp]
        exact List.mem_cons_of_mem a h1
    · intro q hq
      rcases List.mem_cons.mp hq with rfl | hq
      · rw [hp]
        exact hle
      · rw [hp]
        exact hall q hq

theorem pickMaxFirst_fold_skip (l : List (List Char × Nat)) (p : List Char × Nat)
    (h : ∀ q ∈ l, q.2 ≤ p.2) :
    l.foldl (fun best q => if best.2 < q.2 then q else best) p = p := by
  induction l with
  | nil => rfl
  | cons a t ih =>
    simp only [List.foldl_cons]
    have ha : a.2 ≤ p.2 := h a (List.mem_cons_self a t)
    rw [if_neg (by omega)]
    exact ih (fun q hq => h q (List.mem_cons_of_mem a hq))

theorem pickMaxFirst_first_max (l1 l2 : List (List Char × Nat)) (p : List Char × Nat)
    (h1 : ∀ q ∈ l1, q.2 < p.2) (h2 : ∀ q ∈ l2, q.2 ≤ p.2) :
    pickMaxFirst (l1 ++ p :: l2) = some p := by
  have aux : ∀ (m : List (List Char × Nat)) (q0 : List Char × Nat),
      (∀ q ∈ m, q.2 < p.2) → q0.2 < p.2 →
      (m ++ p :: l2).foldl (fun best q => if best.2 < q.2 then q else best) q0 = p := by
    intro m
    induction m with
    | nil =>
      intro q0 _ hq0
      simp only [List.nil_append, List.foldl_cons]
      rw [if_pos hq0]
      exact pickMaxFirst_fold_skip l2 p h2
    | cons a t ih =>
      intro q0 hm hq0
      simp only [List.cons_append, List.foldl_cons]
      have ha : a.2 < p.2 := hm a (List.mem_cons_self a t)
      by_cases h : q0.2 < a.2
      · rw [if_pos h]
        exact ih a (fun q hq => hm q (List.mem_cons_of_mem a hq)) ha
      · rw [if_neg h]
        exact ih q0 (fun q hq => hm q (List.mem_cons_of_mem a hq)) hq0
  match l1, h1 with
  | [], _ =>
    simp only [List.nil_append, pickMaxFirst]
    rw [pickMaxFirst_fold_skip l2 p h2]
  | a :: t, h1 =>
    simp only [List.cons_append, pickMaxFirst]
    rw [aux t a (fun q hq => h1 q (List.mem_cons_of_mem a hq)) (h1 a (List.mem_cons_self a t))]

theorem foldl_splitWs_word (w : List Char) (hw : ∀ c ∈ w, pyWs c = false) :
    ∀ acc cur, w.foldl pySplitWsStep (acc, cur) = (acc, cur ++ w) := by
  induction w with
  | nil => simp
  | cons c t ih =>
    intro acc cur
    have hc : pyWs c = false := hw c (List.mem_cons_self c t)
    simp only [List.foldl_cons, pySplitWsStep, hc]
    rw [if_neg (by simp)]
    rw [ih (fun x hx => hw x (List.mem_cons_of_mem c hx)) acc (cur ++ [c])]
    simp

theorem splitWs_state_inv (l : List Char) :
    ∀ acc cur, (∀ w ∈ acc, cleanWord w) → (∀ c ∈ cur, pyWs c = false) →
    (∀ w ∈ (l.foldl pySplitWsStep (acc, cur)).1, cleanWord w)
      ∧ (∀ c ∈ (l.foldl pySplitWsStep (acc, cur)).2, pyWs c = false) := by
  induction l with
  | nil =>
    intro acc cur h1 h2
    exact ⟨h1, h2⟩
  | cons c t ih =>
    intro acc cur h1 h2
    simp only [List.foldl_cons, pySplitWsStep]
    by_cases hc : pyWs c
    · rw [if_pos hc]
      by_cases hcur : cur = []
      · rw [if_pos hcur]
        exact ih acc [] h1 (by simp)
      · rw [if_neg hcur]
        refine ih (acc ++ [cur]) [] ?_ (by simp)
        intro w hw
        rcases List.mem_append.mp hw with hw | hw
        · exact h1 w hw
        · rw [List.mem_singleton.mp hw]
          exact ⟨hcur, h2⟩
    · rw [if_neg hc]
      refine ih acc (cur ++ [c]) h1 ?_
      intro x hx
      rcases List.mem_append.mp hx with hx | hx
      · exact h2 x hx
      · rw [List.mem_singleton.mp hx]
        simpa using hc

theorem mem_pySplitWs (s w : List Char) (h : w ∈ pySplitWs s) : cleanWord w := by
  rcases splitWs_state_inv s [] [] (by simp) (by simp) with ⟨h1, h2⟩
  rw [pySplitWs] at h
  by_cases hc : (s.foldl pySplitWsStep ([], [])).2 = []
  · rw [if_pos hc] at h
    exact h1 w h
  · rw [if_neg hc] at h
    rcases List.mem_append.mp h with h | h
    · exact h1 w h
    · rw [List.mem_singleton.mp h]
      exact ⟨hc, h2⟩

theorem joinSep_cons₂ (sep w x : List Char) (ws : List (List Char)) :
    joinSep sep (w :: x :: ws) = w ++ sep ++ joinSep sep (x :: ws) := rfl

theorem foldl_splitWs_joinSep (ws : List (List Char)) :
    ∀ acc, (∀ w ∈ ws, cleanWord w) →
    (let st := (joinSep " ".data ws).foldl pySplitWsStep (acc, []);
     if st.2 = [] then st.1 else st.1 ++ [st.2]) = acc ++ ws := by
  induction ws with
  | nil =>
    intro acc _
    simp [joinSep]
  | cons w tl ih =>
    intro acc hclean
    rcases hclean w (List.mem_cons_self w tl) with ⟨hw1, hw2⟩
    match tl with
    | [] =>
      simp only [joinSep]
      rw [foldl_splitWs_word w hw2]
      simp [hw1]
    | x :: ws' =>
      rw [joinSep_cons₂]
      simp only [List.append_assoc, List.foldl_append]
      rw [foldl_splitWs_word w hw2 acc []]
      simp only [List.nil_append, List.foldl_cons]
      have hstep : pySplitWsStep (acc, w) ' ' = (acc ++ [w], []) := by
        simp [pySplitWsStep, pyWs, hw1]
      rw [hstep]
      simp only [List.foldl_nil]
      have := ih (acc ++ [w]) (fun v hv => hclean v (List.mem_cons_of_mem w hv))
      simp only at this
      rw [this]
      simp

theorem pySplitWs_joinSep (ws : List (List Char)) (h : ∀ w ∈ ws, cleanWord w) :
    pySplitWs (joinSep " ".data ws) = ws := by
  have := foldl_splitWs_joinSep ws [] h
  simpa [pySplitWs] using this

theorem wordCount_append_nonws (s : List Char) (d : Char) (hd : pyWs d = false)
    (hs : s ≠ []) (hlast : pyWs (s.getLastD ' ') = false) :
    wordCount (s ++ [d]) = wordCount s := by
  have hdecomp := List.dropLast_append_getLast hs
  set c := s.getLast hs with hc
  have hlc : pyWs c = false := by
    rw [hc]
    rw [List.getLastD_eq_getLast?, List.getLast?_eq_getLast s hs] at hlast
    simpa using hlast
  set st0 := s.dropLast.foldl pySplitWsStep ([], []) with hst0
  have hfold_s : s.foldl pySplitWsStep ([], []) = (st0.1, st0.2 ++ [c]) := by
    conv_lhs => rw [← hdecomp]
    rw [List.foldl_append]
    simp only [List.foldl_cons, List.foldl_nil, ← hst0]
    simp [pySplitWsStep, hlc]
  have hfold_sd : (s ++ [d]).foldl pySplitWsStep ([], []) = (st0.1, st0.2 ++ [c] ++ [d]) := by
    rw [List.foldl_append, hfold_s]
    simp [pySplitWsStep, hd]
  rw [wordCount, wordCount, pySplitWs, pySplitWs, hfold_s, hfold_sd]
  simp

theorem joinSep_append_last (sep lw : List Char) (dl : List (List Char)) (h : dl ≠ []) :
    joinSep sep (dl ++ [lw]) = joinSep sep dl ++ sep ++ lw := by
  induction dl with
  | nil => exact absurd rfl h
  | cons x tl ih =>
    match tl with
    | [] => simp [joinSep]
    | y :: ws' =>
      have h1 : (x :: y :: ws') ++ [lw] = x :: (y :: (ws' ++ [lw])) := by simp
      rw [h1, joinSep_cons₂]
      have h2 : y :: (ws' ++ [lw]) = (y :: ws') ++ [lw] := by simp
      rw [h2, ih (by simp), joinSep_cons₂]
      simp [List.append_assoc]

theorem joinSep_clean_ne_nil (ws : List (List Char)) (hne : ws ≠ [])
    (h : ∀ w ∈ ws, cleanWord w) : joinSep " ".data ws ≠ [] := by
  match ws with
  | [w] =>
    rcases h w (by simp) with ⟨h1, _⟩
    simpa [joinSep] using h1
  | w :: x :: tl =>
    rw [joinSep_cons₂]
    rcases h w (by simp) with ⟨h1, _⟩
    intro habs
    rw [List.append_assoc] at habs
    rcases List.append_eq_nil.mp habs with ⟨hw, _⟩
    exact h1 hw

theorem joinSep_clean_last_not_ws (ws : List (List Char)) (hne : ws ≠ [])
    (h : ∀ w ∈ ws, cleanWord w) :
    pyWs ((joinSep " ".data ws).getLastD ' ') = false := by
  have hdecomp := List.dropLast_append_getLast hne
  set lw := ws.getLast hne with hlw
  have hlwmem : lw ∈ ws := List.getLast_mem hne
  rcases h lw hlwmem with ⟨hlw1, hlw2⟩
  by_cases hdl : ws.dropLast = []
  · have : ws = [lw] := by
      conv_lhs => rw [← hdecomp]
      rw [hdl]
      simp
    rw [this]
    simp only [joinSep]
    rw [List.getLastD_eq_getLast?, List.getLast?_eq_getLast lw hlw1]
    exact hlw2 _ (List.getLast_mem hlw1)
  · conv_lhs => rw [← hdecomp]
    rw [joinSep_append_last " ".data lw ws.dropLast hdl]
    rw [List.append_assoc]
    rw [List.getLastD_eq_getLast?]
    have hne2 : " ".data ++ lw ≠ [] := by simp
    rw [List.getLast?_append_of_ne_nil _ hne2]
    have : (" ".data ++ lw).getLast? = lw.getLast? := by
      have h3 : lw ≠ [] := hlw1
      exact List.getLast?_append_of_ne_nil _ h3
    rw [this, ← List.getLastD_eq_getLast?]
    rw [List.getLastD_eq_getLast?, List.getLast?_eq_getLast lw hlw1]
    exact hlw2 _ (List.getLast_mem hlw1)

theorem dropWhile_head_false (p : Char → Bool) :
    ∀ (l : List Char) c t, l.dropWhile p = c :: t → p c = false := by
  intro l
  induction l with
  | nil =>
    intro c t h
    simp [List.dropWhile] at h
  | cons a l ih =>
    intro c t h
    rw [List.dropWhile] at h
    by_cases ha : p a
    · rw [ha] at h
      exact ih c t h
    · simp only [ha] at h
      injection h with h1 h2
      rw [← h1]
      simpa using ha

theorem pyStrip_getLastD_not_ws (s : List Char) (h : pyStrip s ≠ []) :
    pyWs ((pyStrip s).getLastD ' ') = false := by
  rw [pyStrip] at h ⊢
  have hM' : (s.dropWhile (pyWs ·)).reverse.dropWhile (pyWs ·) ≠ [] := by
    intro he
    rw [he] at h
    simp at h
  obtain ⟨c, t, hM⟩ := List.exists_cons_of_ne_nil hM'
  have hc : pyWs c = false := dropWhile_head_false _ _ c t hM
  rw [hM, List.getLastD_eq_getLast?, List.getLast?_reverse]
  simp [hc]

theorem pyRstrip_eq_self (cs s : List Char) (hs : s ≠ [])
    (hl : cs.contains (s.getLastD ' ') = false) : pyRstrip cs s = s := by
  have hdecomp := List.dropLast_append_getLast hs
  have hcc : cs.contains (s.getLast hs) = false := by
    rw [List.getLastD_eq_getLast?, List.getLast?_eq_getLast s hs] at hl
    simpa using hl
  rw [pyRstrip]
  conv_lhs => rw [← hdecomp]
  rw [List.reverse_append]
  simp only [List.reverse_cons, List.reverse_nil, List.nil_append, List.singleton_append]
  rw [List.dropWhile_cons_of_neg (by simpa using hcc)]
  rw [show (s.getLast hs :: s.dropLast.reverse).reverse = s.dropLast ++ [s.getLast hs] by simp]
  exact hdecomp

theorem pyRstrip_append (cs x y : List Char) :
    pyRstrip cs (x ++ y) = if pyRstrip cs y = [] then pyRstrip cs x else x ++ pyRstrip cs y := by
  have hiff : pyRstrip cs y = [] ↔ (y.reverse.dropWhile (cs.contains ·)).isEmpty := by
    rw [pyRstrip, List.isEmpty_iff]
    simp
  rw [pyRstrip, List.reverse_append, List.dropWhile_append]
  by_cases h : (y.reverse.dropWhile (cs.contains ·)).isEmpty
  · rw [if_pos h, if_pos (hiff.mpr h)]
    rfl
  · rw [if_neg h, if_neg (fun hc => h (hiff.mp hc))]
    rw [List.reverse_append]
    simp [pyRstrip]

theorem mem_pyRstrip (cs s : List Char) (c : Char) (h : c ∈ pyRstrip cs s) : c ∈ s := by
  rw [pyRstrip] at h
  rw [List.mem_reverse] at h
  have := List.IsSuffix.mem h (List.dropWhile_suffix (cs.contains ·))
  simpa using this

theorem splitSentences_ne_nil (s : List Char) : splitSentences s ≠ [] := by
  simp [splitSentences]

theorem insertDesc_ne_nil (f : List Char → Nat) (x : List Char) (l : List (List Char)) :
    PS.insertDesc f x l ≠ [] := by
  match l with
  | [] => simp [PS.insertDesc]
  | y :: ys =>
    rw [PS.insertDesc]
    split
    · simp
    · simp

theorem sortDesc_ne_nil (f : List Char → Nat) (l : List (List Char)) (h : l ≠ []) :
    PS.sortDesc f l ≠ [] := by
  match l with
  | a :: t =>
    rw [PS.sortDesc, List.foldr_cons]
    exact insertDesc_ne_nil f a _

/-- C10: is_front_matter returns false whenever the chunk text is the
empty string, for every heading path and every page number, even when
the path contains a front-matter marker such as preface or
contributors. -/
theorem claim_C10 (path : List Char) (page : Int) :
    BN.is_front_matter [] path page = false := by
  rfl

/-- C9: the enrichment is deterministic and per-row: the batch loop
produces exactly the map of process_row over the rows, so each output
record is a pure function of its own input row, with no cross-record
state. -/
theorem claim_C9 :
    (∀ rows : List BN.RowIn, BN.processRows rows = rows.map BN.process_row)
    ∧ (∀ (pre : List BN.RowIn) (row : BN.RowIn) (post : List BN.RowIn),
        BN.processRows (pre ++ row :: post)
          = BN.processRows pre ++ BN.process_row row :: BN.processRows post) := by
  constructor
  · exact processRows_eq_map
  · intro pre row post
    rw [processRows_eq_map, processRows_eq_map, processRows_eq_map]
    simp

/-- C7: when the front-matter detector flags a row, process_row returns
the fixed placeholder record - section Front Matter, empty keywords, the
canned summary and the default category - and its output does not depend
on the keywords or concept-map cells, so the classifier, keyword cleaner
and summary generator are not applied. -/
theorem claim_C7 (row : BN.RowIn)
    (hfront : BN.is_front_matter (BN.pyOrEmptyStr row.chunk_text)
      (BN.pyOrEmptyStr row.section_heading_path) (BN._to_int row.page_number) = true) :
    (BN.process_row row).sect = "Front Matter".data
    ∧ (BN.process_row row).keywords = []
    ∧ (BN.process_row row).content_summary
        = "Contributors and affiliations; non-clinical content.".data
    ∧ (BN.process_row row).category = "General Pediatrics".data
    ∧ ∀ kw mc : CellVal,
        BN.process_row { row with keywords := kw, medical_concepts := mc }
          = BN.process_row row := by
  refine ⟨?_, ?_, ?_, ?_, ?_⟩
  · simp [BN.process_row, hfront]
  · simp [BN.process_row, hfront]
  · simp [BN.process_row, hfront]
  · simp [BN.process_row, hfront]
  · intro kw mc
    simp [BN.process_row, hfront]

theorem conceptTermsOf_badJson (s : List Char)
    (h1 : jsonLoads (pyStrip s) = none)
    (h2 : jsonLoads ((pyStrip s).map (fun c => if c = '\'' then '"' else c)) = none) :
    BN.conceptTermsOf (CellVal.str s) = [] := by
  by_cases hsp : pyStrip s = [] <;> simp [BN.conceptTermsOf, hsp, h1, h2]

/-- C8: a row with malformed JSON in the concept map and a missing or
non-numeric page number is processed without any exception escaping
process_row: the failures are replaced by their safe defaults, so the
row is processed exactly as if the concept map were the empty object and
the page number zero, and the output page number is zero. -/
theorem claim_C8 (row : BN.RowIn)
    (hmc : ∃ s, row.medical_concepts = CellVal.str s
      ∧ jsonLoads (pyStrip s) = none
      ∧ jsonLoads ((pyStrip s).map (fun c => if c = '\'' then '"' else c)) = none)
    (hpage : row.page_number = CellVal.na
      ∨ ∃ p, row.page_number = CellVal.str p ∧ pyParseInt p = none ∧ pyParseFloatTrunc p = none) :
    BN.process_row row
      = BN.process_row { row with
          medical_concepts := CellVal.str "\x7b\x7d".data
          page_number := CellVal.int 0 }
    ∧ (BN.process_row row).page_number = 0 := by
  obtain ⟨s, hs, h1, h2⟩ := hmc
  have hterms : BN.conceptTermsOf row.medical_concepts = [] := by
    rw [hs]
    exact conceptTermsOf_badJson s h1 h2
  have hterms0 : BN.conceptTermsOf (CellVal.str "\x7b\x7d".data) = [] := by rfl
  have hpage0 : BN._to_int row.page_number = 0 := by
    rcases hpage with h | ⟨p, hp, hp1, hp2⟩
    · rw [h]
      rfl
    · rw [hp]
      simp [BN._to_int, hp1, hp2]
  have hcat : ∀ text chap, BN.map_category row.medical_concepts text chap
      = BN.map_category (CellVal.str "\x7b\x7d".data) text chap := by
    intro text chap
    simp [BN.map_category, BN.conceptTextOf, hterms, hterms0]
  have hpn : (BN.process_row row).page_number = BN._to_int row.page_number := by
    simp only [BN.process_row]
    split <;> rfl
  constructor
  · simp only [BN.process_row, hpage0, hcat]
    rfl
  · rw [hpn, hpage0]

theorem claim_C7_witness :
    (BN.process_row { section_heading_path := CellVal.str "Preface".data
                      chunk_text := CellVal.str "Preface and contributors".data
                      page_number := CellVal.int 3
                      medical_concepts := CellVal.na
                      keywords := CellVal.na }).sect = "Front Matter".data := by
  exact (claim_C7 _ (by decide)).1

theorem claim_C8_witness :
    (BN.process_row { section_heading_path := CellVal.na
                      chunk_text := CellVal.na
                      page_number := CellVal.str "N/A".data
                      medical_concepts := CellVal.str "not json".data
                      keywords := CellVal.na }).page_number = 0 := by
  exact (claim_C8 _ ⟨"not json".data, rfl, rfl, rfl⟩
    (Or.inr ⟨"N/A".data, rfl, rfl, rfl⟩)).2

/-- C3: is_front_matter returns true for every chunk whose text carries
at least six degree-abbreviation matches or at least six institution
substrings, at most one clinical-term occurrence, and a page number up
to fifty; and it returns false for every chunk whose text contains both
treatment and diagnosis at page ten when no front-matter marker or
publisher token is present, whatever the degree count. -/
theorem claim_C3 :
    (∀ (text path : List Char) (page : Int),
        (6 ≤ countToks BN.degreeToks text
          ∨ 6 ≤ (BN.instToks.map (fun t => pyCount t (pyLower text))).sum) →
        (BN.bnClinicalSignalTerms.map (fun t => pyCount t (pyLower text))).sum ≤ 1 →
        page ≤ 50 →
        BN.is_front_matter text path page = true)
    ∧ (∀ (text path : List Char),
        pyContains "treatment".data (pyLower text) = true →
        pyContains "diagnosis".data (pyLower text) = true →
        (∀ m ∈ BN.bnTextMarkers, pyContains m (pyLower text) = false) →
        (∀ m ∈ BN.bnPathMarkers, pyContains m (pyLower path) = false) →
        pyContains "elsevier".data (pyLower text) = false →
        BN.is_front_matter text path 10 = false) := by
  constructor
  · intro text path page hdeg hclin hpage
    have htext : text ≠ [] := by
      intro he
      subst he
      revert hdeg
      decide
    rw [BN.is_front_matter, if_neg htext]
    by_cases hm : (BN.bnTextMarkers.any (fun t => pyContains t (pyLower text))
        || BN.bnPathMarkers.any (fun t => pyContains t (pyLower path))) = true
    · rw [if_pos hm]
    · rw [if_neg hm, if_pos ⟨hdeg, hclin, hpage⟩]
  · intro text path h1 h2 hm1 hm2 hels
    have htext : text ≠ [] := by
      intro he
      subst he
      revert h1
      decide
    have hclin : ¬ ((BN.bnClinicalSignalTerms.map (fun t => pyCount t (pyLower text))).sum ≤ 1) := by
      have hd := pyCount_pos_of_contains "diagnosis".data (by decide) (pyLower text) h2
      have ht := pyCount_pos_of_contains "treatment".data (by decide) (pyLower text) h1
      simp only [BN.bnClinicalSignalTerms, strs, List.map_cons, List.map_nil, List.sum_cons]
      have hd2 : 1 ≤ pyCount ['d', 'i', 'a', 'g', 'n', 'o', 's', 'i', 's'] (pyLower text) := hd
      have ht2 : 1 ≤ pyCount ['t', 'r', 'e', 'a', 't', 'm', 'e', 'n', 't'] (pyLower text) := ht
      omega
    have hmf : (BN.bnTextMarkers.any (fun t => pyContains t (pyLower text))
        || BN.bnPathMarkers.any (fun t => pyContains t (pyLower path))) = false := by
      rw [Bool.or_eq_false_iff]
      constructor
      · rw [List.any_eq_false]
        intro m hm
        simp [hm1 m hm]
      · rw [List.any_eq_false]
        intro m hm
        simp [hm2 m hm]
    rw [BN.is_front_matter, if_neg htext, if_neg (by rw [hmf]; simp)]
    rw [if_neg (by intro hcond; exact hclin hcond.2.1)]
    rw [if_neg (by intro hcond; rw [hels] at hcond; exact absurd hcond.1 (by simp))]

theorem cleanKeywordsAux_inv (toks : List (List Char)) :
    ∀ seen res, res.length < 10 →
    (∀ t ∈ res, BN.bnStopwords.contains (pyLower t) = false) →
    (BN.cleanKeywordsAux toks seen res).length ≤ 10
      ∧ ∀ t ∈ BN.cleanKeywordsAux toks seen res,
          BN.bnStopwords.contains (pyLower t) = false := by
  induction toks with
  | nil =>
    intro seen res h1 h2
    rw [BN.cleanKeywordsAux]
    exact ⟨by omega, h2⟩
  | cons kw rest ih =>
    intro seen res hlen hP
    simp only [BN.cleanKeywordsAux]
    split
    · exact ih seen res hlen hP
    · split
      · exact ih seen res hlen hP
      · split
        · exact ih seen res hlen hP
        · split
          · exact ih seen res hlen hP
          · split
            · exact ih seen res hlen hP
            · split
              · exact ih seen res hlen hP
              · split
                · exact ih seen res hlen hP
                · rename_i hkw hstop hlen3 hdig hsp hmed hseen
                  have hstop' : BN.bnStopwords.contains (pyLower kw) = false := by
                    simpa using hstop
                  have hPext : ∀ t ∈ res ++ [kw],
                      BN.bnStopwords.contains (pyLower t) = false := by
                    intro t ht
                    rcases List.mem_append.mp ht with ht | ht
                    · exact hP t ht
                    · rw [List.mem_singleton.mp ht]
                      exact hstop'
                  split
                  · constructor
                    · simp only [List.length_append, List.length_singleton]
                      omega
                    · exact hPext
                  · rename_i hlt
                    refine ih (seen ++ [pyLower kw]) (res ++ [kw]) ?_ hPext
                    simp only [List.length_append, List.length_singleton] at hlt ⊢
                    omega

theorem mem_pyStrip (s : List Char) (c : Char) (h : c ∈ pyStrip s) : c ∈ s := by
  rw [pyStrip, List.mem_reverse] at h
  have h2 := List.IsSuffix.mem h (List.dropWhile_suffix (pyWs ·))
  rw [List.mem_reverse] at h2
  exact List.IsSuffix.mem h2 (List.dropWhile_suffix (pyWs ·))

theorem map_id_of_fixed {f : Char → Char} :
    ∀ l : List Char, (∀ c ∈ l, f c = c) → l.map f = l := by
  intro l
  induction l with
  | nil => simp
  | cons c t ih =>
    intro h
    rw [List.map_cons, h c (List.mem_cons_self c t), ih (fun x hx => h x (List.mem_cons_of_mem c hx))]

theorem psCleanTok_lower_fixed (x : List Char) : pyLower (PS.psCleanTok x) = PS.psCleanTok x := by
  rw [pyLower]
  refine map_id_of_fixed _ ?_
  intro c hc
  have hc2 : c ∈ (pyLower x).filter PS.psAllowedChar := mem_pyStrip _ c hc
  have hc3 : c ∈ pyLower x := List.mem_of_mem_filter hc2
  rw [pyLower] at hc3
  rcases List.mem_map.mp hc3 with ⟨a, _, ha⟩
  rw [← ha]
  exact toLower_idem a

theorem psCleanAux_inv (toks : List (List Char)) :
    ∀ seen clean,
    (∀ t ∈ clean, pyLower t = t ∧ PS.PS_STOPWORDS.contains t = false
      ∧ PS.NON_MED_GENERIC.contains t = false) →
    (∀ t ∈ PS.psCleanAux toks seen clean,
        pyLower t = t ∧ PS.PS_STOPWORDS.contains t = false
          ∧ PS.NON_MED_GENERIC.contains t = false) := by
  induction toks with
  | nil =>
    intro seen clean h
    rw [PS.psCleanAux]
    exact h
  | cons x rest ih =>
    intro seen clean h
    simp only [PS.psCleanAux]
    split
    · exact ih seen clean h
    · split
      · exact ih seen clean h
      · split
        · rename_i hdrop _ hkeep
          split
          · exact ih seen clean h
          · refine ih _ _ ?_
            intro t ht
            rcases List.mem_append.mp ht with ht | ht
            · exact h t ht
            · rw [List.mem_singleton.mp ht]
              push_neg at hdrop
              refine ⟨psCleanTok_lower_fixed x, ?_, ?_⟩
              · simpa using hdrop.2.1
              · simpa using hdrop.2.2
        · exact ih seen clean h

/-- C1: the cleaned keyword output of clean_keywords always holds at
most ten comma-joined tokens, and no returned token is a stopword (the
check is case-insensitive); in processing_script.py the returned tokens
are moreover lowercase, while build_nelson_gpt_knowledge.py returns the
tokens in their original case - the correction the counterexample
forces. -/
theorem claim_C1_amended :
    (∀ v : CellVal,
      (BN.cleanKeywordsTokens v).length ≤ 10
      ∧ (∀ t ∈ BN.cleanKeywordsTokens v, BN.bnStopwords.contains (pyLower t) = false)
      ∧ BN.clean_keywords v = joinSep ",".data (BN.cleanKeywordsTokens v))
    ∧ (∀ s : List Char,
      (PS.psCleanTokens s).length ≤ 10
      ∧ (∀ t ∈ PS.psCleanTokens s, pyLower t = t ∧ PS.PS_STOPWORDS.contains t = false
          ∧ PS.NON_MED_GENERIC.contains t = false)
      ∧ PS.clean_keywords s = joinSep ",".data (PS.psCleanTokens s)) := by
  constructor
  · intro v
    refine ⟨?_, ?_, rfl⟩
    · match v with
      | .na => simp [BN.cleanKeywordsTokens]
      | .str s =>
        rw [BN.cleanKeywordsTokens, BN.cleanKeywordsTokensStr]
        split
        · simp
        · exact (cleanKeywordsAux_inv _ _ _ (by simp) (by simp)).1
      | .int n =>
        rw [BN.cleanKeywordsTokens, BN.cleanKeywordsTokensStr]
        split
        · simp
        · exact (cleanKeywordsAux_inv _ _ _ (by simp) (by simp)).1
    · match v with
      | .na => simp [BN.cleanKeywordsTokens]
      | .str s =>
        rw [BN.cleanKeywordsTokens, BN.cleanKeywordsTokensStr]
        split
        · simp
        · exact (cleanKeywordsAux_inv _ _ _ (by simp) (by simp)).2
      | .int n =>
        rw [BN.cleanKeywordsTokens, BN.cleanKeywordsTokensStr]
        split
        · simp
        · exact (cleanKeywordsAux_inv _ _ _ (by simp) (by simp)).2
  · intro s
    refine ⟨?_, ?_, rfl⟩
    · rw [PS.psCleanTokens]
      split
      · simp
      · exact List.length_take_le 10 _
    · intro t ht
      rw [PS.psCleanTokens] at ht
      have ht2 : t ∈ PS.psCleanAux ((pySplitChar ',' s).map pyStrip) [] [] := by
        split at ht
        · simp at ht
        · exact List.mem_of_mem_take ht
      exact psCleanAux_inv _ _ _ (by simp) t ht2

/-- C1 counterexample: clean_keywords of build_nelson_gpt_knowledge.py
returns the token Asthma in its original case, which is not lowercase,
refuting the claim that every returned token is lowercase. -/
theorem claim_C1_counterexample :
    BN.clean_keywords (CellVal.str "Asthma".data) = "Asthma".data
    ∧ pyLower "Asthma".data ≠ "Asthma".data := by
  constructor
  · rfl
  · decide

theorem map_category_eq_match (mc : CellVal) (text chap : List Char) :
    BN.map_category mc text chap
      = match pickMaxFirst (BN.category_mapping.filterMap (fun ck =>
          if 0 < BN.bnCatScore ck.2 (pyLower text) (BN.conceptTextOf mc) then
            some (ck.1, BN.bnCatScore ck.2 (pyLower text) (BN.conceptTextOf mc))
          else none)) with
        | some p => p.1
        | none => if chap = [] then "General Pediatrics".data else chap := rfl

/-- C6: map_category scores each category of the fixed table as the
occurrence count of its keywords in the lowercased text plus twice
their occurrence count in the flattened concept-map terms; when no
category scores above zero it returns the chapter string, or the fixed
default when the chapter is empty; and when some category is positive
it returns a table category of maximal score. -/
theorem claim_C6 (mc : CellVal) (text chap : List Char) :
    (∀ p ∈ BN.category_mapping,
        BN.bnCatScore p.2 (pyLower text) (BN.conceptTextOf mc)
          = (p.2.map (fun kw => pyCount kw (pyLower text))).sum
            + 2 * (p.2.map (fun kw => pyCount kw (BN.conceptTextOf mc))).sum)
    ∧ ((∀ p ∈ BN.category_mapping,
          BN.bnCatScore p.2 (pyLower text) (BN.conceptTextOf mc) = 0) →
        BN.map_category mc text chap = if chap = [] then "General Pediatrics".data else chap)
    ∧ ((∃ p ∈ BN.category_mapping,
          0 < BN.bnCatScore p.2 (pyLower text) (BN.conceptTextOf mc)) →
        ∃ q ∈ BN.category_mapping, BN.map_category mc text chap = q.1
          ∧ ∀ p ∈ BN.category_mapping,
              BN.bnCatScore p.2 (pyLower text) (BN.conceptTextOf mc)
                ≤ BN.bnCatScore q.2 (pyLower text) (BN.conceptTextOf mc)) := by
  refine ⟨fun p _ => rfl, ?_, ?_⟩
  · intro hzero
    rw [map_category_eq_match]
    have hnil : BN.category_mapping.filterMap (fun ck =>
        if 0 < BN.bnCatScore ck.2 (pyLower text) (BN.conceptTextOf mc) then
          some (ck.1, BN.bnCatScore ck.2 (pyLower text) (BN.conceptTextOf mc))
        else none) = [] := by
      rw [List.filterMap_eq_nil_iff]
      intro a ha
      rw [if_neg (by rw [hzero a ha]; omega)]
    rw [hnil]
    rfl
  · intro ⟨p0, hp0mem, hp0pos⟩
    rw [map_category_eq_match]
    set f := fun ck : List Char × List (List Char) =>
      if 0 < BN.bnCatScore ck.2 (pyLower text) (BN.conceptTextOf mc) then
        some (ck.1, BN.bnCatScore ck.2 (pyLower text) (BN.conceptTextOf mc))
      else none with hf
    have hmem0 : (p0.1, BN.bnCatScore p0.2 (pyLower text) (BN.conceptTextOf mc))
        ∈ BN.category_mapping.filterMap f := by
      rw [List.mem_filterMap]
      exact ⟨p0, hp0mem, by rw [hf]; simp [hp0pos]⟩
    obtain ⟨m, hm⟩ : ∃ m, pickMaxFirst (BN.category_mapping.filterMap f) = some m := by
      match hsc : BN.category_mapping.filterMap f with
      | [] =>
        rw [hsc] at hmem0
        simp at hmem0
      | a :: t => exact ⟨_, rfl⟩
    rcases pickMaxFirst_spec _ m hm with ⟨hmmem, hmax⟩
    rcases List.mem_filterMap.mp hmmem with ⟨a, hamem, hfa⟩
    have hfa1 : (if 0 < BN.bnCatScore a.2 (pyLower text) (BN.conceptTextOf mc) then
        some (a.1, BN.bnCatScore a.2 (pyLower text) (BN.conceptTextOf mc))
        else none) = some m := hfa
    have hfa2 : m = (a.1, BN.bnCatScore a.2 (pyLower text) (BN.conceptTextOf mc))
        ∧ 0 < BN.bnCatScore a.2 (pyLower text) (BN.conceptTextOf mc) := by
      by_cases hpos : 0 < BN.bnCatScore a.2 (pyLower text) (BN.conceptTextOf mc)
      · rw [if_pos hpos] at hfa1
        exact ⟨(Option.some.injEq _ _).mp hfa1.symm, hpos⟩
      · rw [if_neg hpos] at hfa1
        exact absurd hfa1 (by simp)
    refine ⟨a, hamem, ?_, ?_⟩
    · rw [hm]
      rw [hfa2.1]
    · intro p hpmem
      by_cases hpos : 0 < BN.bnCatScore p.2 (pyLower text) (BN.conceptTextOf mc)
      · have : (p.1, BN.bnCatScore p.2 (pyLower text) (BN.conceptTextOf mc))
            ∈ BN.category_mapping.filterMap f := by
          rw [List.mem_filterMap]
          exact ⟨p, hpmem, by rw [hf]; simp [hpos]⟩
        have := hmax _ this
        rw [hfa2.1] at this
        simpa using this
      · omega

/-- C2 amended: in build_nelson_gpt_knowledge.py map_category is indeed
order-stable - when the category at the earlier table position i attains
the same positive maximal score as a later category j and beats every
earlier category strictly, the category at position i is returned; in
processing_script.py the counterexample shows ties are instead broken by
the order categories first scored, which can differ from table order. -/
theorem claim_C2_amended (mc : CellVal) (text chap : List Char) (i j : Nat)
    (hi : i < BN.category_mapping.length) (hj : j < BN.category_mapping.length)
    (hij : i < j)
    (heq : BN.bnCatScore (BN.category_mapping.get ⟨j, hj⟩).2 (pyLower text) (BN.conceptTextOf mc)
      = BN.bnCatScore (BN.category_mapping.get ⟨i, hi⟩).2 (pyLower text) (BN.conceptTextOf mc))
    (hpos : 0 < BN.bnCatScore (BN.category_mapping.get ⟨i, hi⟩).2 (pyLower text) (BN.conceptTextOf mc))
    (hmax : ∀ p ∈ BN.category_mapping,
        BN.bnCatScore p.2 (pyLower text) (BN.conceptTextOf mc)
          ≤ BN.bnCatScore (BN.category_mapping.get ⟨i, hi⟩).2 (pyLower text) (BN.conceptTextOf mc))
    (hfirst : ∀ p ∈ BN.category_mapping.take i,
        BN.bnCatScore p.2 (pyLower text) (BN.conceptTextOf mc)
          < BN.bnCatScore (BN.category_mapping.get ⟨i, hi⟩).2 (pyLower text) (BN.conceptTextOf mc)) :
    BN.map_category mc text chap = (BN.category_mapping.get ⟨i, hi⟩).1 := by
  rw [map_category_eq_match]
  set f := fun ck : List Char × List (List Char) =>
    if 0 < BN.bnCatScore ck.2 (pyLower text) (BN.conceptTextOf mc) then
      some (ck.1, BN.bnCatScore ck.2 (pyLower text) (BN.conceptTextOf mc))
    else none with hf
  set pi := BN.category_mapping.get ⟨i, hi⟩ with hpi
  have hsplit : BN.category_mapping
      = BN.category_mapping.take i ++ pi :: BN.category_mapping.drop (i + 1) := by
    conv_lhs => rw [← List.take_append_drop i BN.category_mapping]
    congr 1
    rw [hpi, List.get_eq_getElem]
    exact (List.getElem_cons_drop BN.category_mapping i hi).symm
  have hfpi : f pi = some (pi.1, BN.bnCatScore pi.2 (pyLower text) (BN.conceptTextOf mc)) := by
    rw [hf]
    simp [hpos]
  have hmemval : ∀ (l : List (List Char × List (List Char))) (q : List Char × Nat),
      q ∈ l.filterMap f →
      ∃ a ∈ l, q = (a.1, BN.bnCatScore a.2 (pyLower text) (BN.conceptTextOf mc)) := by
    intro l q hq
    rcases List.mem_filterMap.mp hq with ⟨a, hamem, hfa⟩
    have hfa1 : (if 0 < BN.bnCatScore a.2 (pyLower text) (BN.conceptTextOf mc) then
        some (a.1, BN.bnCatScore a.2 (pyLower text) (BN.conceptTextOf mc))
        else none) = some q := hfa
    by_cases hp : 0 < BN.bnCatScore a.2 (pyLower text) (BN.conceptTextOf mc)
    · rw [if_pos hp] at hfa1
      exact ⟨a, hamem, (Option.some.injEq _ _).mp hfa1.symm⟩
    · rw [if_neg hp] at hfa1
      exact absurd hfa1 (by simp)
  have hscores : BN.category_mapping.filterMap f
      = (BN.category_mapping.take i).filterMap f
        ++ (pi.1, BN.bnCatScore pi.2 (pyLower text) (BN.conceptTextOf mc))
          :: (BN.category_mapping.drop (i + 1)).filterMap f := by
    conv_lhs => rw [hsplit]
    rw [List.filterMap_append]
    congr 1
    rw [List.filterMap_cons, hfpi]
  rw [hscores, pickMaxFirst_first_max]
  · intro q hq
    rcases hmemval _ q hq with ⟨a, hamem, rfl⟩
    exact hfirst a hamem
  · intro q hq
    rcases hmemval _ q hq with ⟨a, hamem, rfl⟩
    exact hmax a (List.mem_of_mem_drop hamem)

/-- C2 counterexample: in processing_script.py the chapter brain and the
text cardiac heart give Cardiology and Neurology the same maximal score
of two, Cardiology is declared first in the table, yet map_category
returns Neurology, because the scores dict lists Neurology first. -/
theorem claim_C2_counterexample :
    PS.psScores "".data "cardiac heart".data "brain".data
      = [("Neurology".data, 2), ("Cardiology".data, 2)]
    ∧ PS.map_category "".data "cardiac heart".data "brain".data = "Neurology".data
    ∧ PS.CATEGORY_KEYWORDS.findIdx (fun p => p.1 == "Cardiology".data) = 0
    ∧ PS.CATEGORY_KEYWORDS.findIdx (fun p => p.1 == "Neurology".data) = 5
    ∧ "Neurology".data ≠ "Cardiology".data := by
  refine ⟨by decide, by decide, by decide, by decide, by decide⟩

/-- C2 witness: the tie between Cardiology (table position zero) and
Infectious Diseases (position one) on the text heart infection resolves
to Cardiology in build_nelson_gpt_knowledge.py. -/
theorem claim_C2_witness :
    BN.map_category CellVal.na "heart infection".data "x".data = "Cardiology".data := by
  exact claim_C2_amended CellVal.na "heart infection".data "x".data 0 1
    (by decide) (by decide) (by decide) (by decide) (by decide)
    (by decide) (by decide)

theorem dropWhile_ne_nil_of_mem (p : Char → Bool) :
    ∀ (l : List Char) (c : Char), c ∈ l → p c = false → l.dropWhile p ≠ [] := by
  intro l
  induction l with
  | nil =>
    intro c hc
    simp at hc
  | cons a t ih =>
    intro c hc hpc
    rw [List.dropWhile]
    by_cases ha : p a
    · rw [ha]
      rcases List.mem_cons.mp hc with rfl | hc
      · rw [hpc] at ha
        exact absurd ha (by simp)
      · exact ih c hc hpc
    · simp only [ha]
      simp

theorem mem_dropWhile_of_not_p (p : Char → Bool) (l : List Char) (c : Char)
    (hc : c ∈ l) (hn : p c = false) : c ∈ l.dropWhile p := by
  have hsplit := List.takeWhile_append_dropWhile (p := p) (l := l)
  rw [← hsplit] at hc
  rcases List.mem_append.mp hc with hc | hc
  · have := List.mem_takeWhile_imp hc
    rw [hn] at this
    exact absurd this (by simp)
  · exact hc

theorem mem_pyStrip_of_not_ws (s : List Char) (c : Char)
    (hc : c ∈ s) (hn : pyWs c = false) : c ∈ pyStrip s := by
  rw [pyStrip, List.mem_reverse]
  exact mem_dropWhile_of_not_p _ _ c
    (List.mem_reverse.mpr (mem_dropWhile_of_not_p _ _ c hc hn)) hn

theorem pyStrip_nil_all_ws (s : List Char) (h : pyStrip s = []) :
    ∀ c ∈ s, pyWs c = true := by
  intro c hc
  by_contra hn
  have hn2 : pyWs c = false := by
    cases hh : pyWs c
    · rfl
    · exact absurd hh hn
  have := mem_pyStrip_of_not_ws s c hc hn2
  rw [h] at this
  simp at this

theorem pyStrip_nil_of_all_ws (w : List Char) (h : ∀ c ∈ w, pyWs c = true) :
    pyStrip w = [] := by
  rw [pyStrip]
  have h1 : w.dropWhile (pyWs ·) = [] := by
    rw [List.dropWhile_eq_nil_iff]
    intro c hc
    simpa using h c hc
  rw [h1]
  simp

theorem mem_pySplitChar (sep : Char) :
    ∀ (s : List Char) (w : List Char) (c : Char),
    w ∈ pySplitChar sep s → c ∈ w → c ∈ s := by
  intro s
  induction s with
  | nil =>
    intro w c hw hc
    rw [pySplitChar] at hw
    rw [List.mem_singleton.mp hw] at hc
    simp at hc
  | cons a t ih =>
    intro w c hw hc
    rw [pySplitChar] at hw
    by_cases ha : a = sep
    · rw [if_pos ha] at hw
      rcases List.mem_cons.mp hw with rfl | hw
      · simp at hc
      · exact List.mem_cons_of_mem a (ih w c hw hc)
    · rw [if_neg ha] at hw
      match hr : pySplitChar sep t with
      | [] =>
        rw [hr] at hw
        rw [List.mem_singleton.mp hw] at hc
        rcases List.mem_singleton.mp hc with rfl
        exact List.mem_cons_self _ _
      | v :: vs =>
        rw [hr] at hw
        rcases List.mem_cons.mp hw with rfl | hw
        · rcases List.mem_cons.mp hc with rfl | hc
          · exact List.mem_cons_self _ _
          · refine List.mem_cons_of_mem _ (ih v c ?_ hc)
            rw [hr]
            exact List.mem_cons_self v vs
        · refine List.mem_cons_of_mem _ (ih w c ?_ hc)
          rw [hr]
          exact List.mem_cons_of_mem v hw

theorem headFold_fst (parts : List (List Char)) :
    ∀ st : List Char × List Char × List (List Char),
    (parts.foldl PS.headFoldStep st).1
      = parts.foldl (fun a p =>
          match rePartMatch p with
          | some g => pyStrip g
          | none => a) st.1 := by
  induction parts with
  | nil =>
    intro st
    rfl
  | cons p rest ih =>
    intro st
    simp only [List.foldl_cons]
    match h : rePartMatch p with
    | some g =>
      rw [show PS.headFoldStep st p = (pyStrip g, st.2.1, st.2.2) by rw [PS.headFoldStep, h]]
      rw [ih]
    | none =>
      have hstep : (PS.headFoldStep st p).1 = st.1 := by
        rw [PS.headFoldStep, h]
        match h2 : reChapterMatch p with
        | some g2 => rfl
        | none => rfl
      rw [ih]
      rw [hstep]

theorem lastPartTitle_fold_some (parts : List (List Char)) :
    ∀ x : List Char,
    parts.foldl (fun acc p =>
        match rePartMatch p with
        | some g => some (pyStrip g)
        | none => acc) (some x)
      = some (parts.foldl (fun a p =>
          match rePartMatch p with
          | some g => pyStrip g
          | none => a) x) := by
  induction parts with
  | nil =>
    intro x
    rfl
  | cons p rest ih =>
    intro x
    simp only [List.foldl_cons]
    match h : rePartMatch p with
    | some g =>
      simp only [h]
      exact ih (pyStrip g)
    | none =>
      simp only [h]
      exact ih x

theorem plainFold_eq_lastPartTitle (parts : List (List Char)) :
    ∀ x : List Char,
    parts.foldl (fun a p =>
        match rePartMatch p with
        | some g => pyStrip g
        | none => a) x
      = match PS.lastPartTitle parts with
        | some t => t
        | none => x := by
  induction parts with
  | nil =>
    intro x
    rfl
  | cons p rest ih =>
    intro x
    rw [PS.lastPartTitle]
    simp only [List.foldl_cons]
    match h : rePartMatch p with
    | some g =>
      simp only [h]
      rw [lastPartTitle_fold_some]
    | none =>
      simp only [h]
      rw [ih x]
      rfl

/-- C5: parse_heading_path maps a missing or blank heading path to the
record with all four fields empty (the function is total, so no
exception or null arises), and whenever some segment of the path matches
the Part pattern, the chapter field is derived from the last such
segment's Part title by the source's bullet strip. -/
theorem claim_C5 :
    PS.parse_heading_path none = ⟨[], [], [], []⟩
    ∧ (∀ ps : List Char, pyStrip ps = [] →
        PS.parse_heading_path (some ps) = ⟨[], [], [], []⟩)
    ∧ (∀ (ps t : List Char), PS.lastPartTitle (PS.partsOf ps) = some t → t ≠ [] →
        (PS.parse_heading_path (some ps)).chapter = pyStrip (stripLeadingU t)) := by
  refine ⟨rfl, ?_, ?_⟩
  · intro ps h
    simp only [PS.parse_heading_path]
    rw [if_pos h]
  · intro ps t hl ht
    have hps : ¬(pyStrip ps = []) := by
      intro he
      have hparts : PS.partsOf ps = [] := by
        rw [PS.partsOf]
        have h1 : ((pySplitChar '>' ps).map pyStrip).filter (fun p => ¬p.isEmpty) = [] := by
          rw [List.filter_eq_nil_iff]
          intro w hw
          rcases List.mem_map.mp hw with ⟨x, hx, rfl⟩
          have hxs : pyStrip x = [] := pyStrip_nil_of_all_ws x
            (fun c hc => pyStrip_nil_all_ws ps he c (mem_pySplitChar '>' ps x c hx hc))
          simp [hxs]
        rw [h1]
        rfl
      rw [hparts] at hl
      exact absurd hl (by simp [PS.lastPartTitle])
    have hpt : ((PS.partsOf ps).foldl PS.headFoldStep ([], [], [])).1 = t := by
      rw [headFold_fst, plainFold_eq_lastPartTitle, hl]
    simp only [PS.parse_heading_path]
    rw [if_neg hps]
    simp only [hpt]
    rw [if_pos ht]

theorem summary_finalize_spec (s1 : List Char)
    (hwc : wordCount s1 ≤ 150)
    (hlast : s1 ≠ [] → pyWs (s1.getLastD ' ') = false) :
    wordCount (if s1 ≠ [] ∧ ¬isSentEnd (s1.getLastD ' ') = true then s1 ++ ['.'] else s1) ≤ 150
    ∧ ((if s1 ≠ [] ∧ ¬isSentEnd (s1.getLastD ' ') = true then s1 ++ ['.'] else s1) ≠ [] →
        isSentEnd ((if s1 ≠ [] ∧ ¬isSentEnd (s1.getLastD ' ') = true then s1 ++ ['.'] else s1).getLastD ' ')
          = true) := by
  by_cases hc : s1 ≠ [] ∧ ¬isSentEnd (s1.getLastD ' ') = true
  · rw [if_pos hc]
    constructor
    · rw [wordCount_append_nonws s1 '.' (by decide) hc.1 (hlast hc.1)]
      exact hwc
    · intro _
      rw [List.getLastD_concat]
      rfl
  · rw [if_neg hc]
    refine ⟨hwc, ?_⟩
    intro hne
    push_neg at hc
    simpa using hc hne

theorem bn_generate_summary_spec (text : List Char) :
    wordCount (BN.generate_summary text) ≤ 150
    ∧ (BN.generate_summary text ≠ [] →
        isSentEnd ((BN.generate_summary text).getLastD ' ') = true) := by
  simp only [BN.generate_summary]
  by_cases htext : pyStrip (normWsAll (BN._strip_notices text)) = []
  · rw [if_pos htext]
    refine ⟨by simp [wordCount, pySplitWs], ?_⟩
    intro h
    exact absurd rfl h
  · rw [if_neg htext]
    generalize (if BN.collectClinical ((splitSentences (pyStrip (normWsAll (BN._strip_notices text)))).take 12) 0 = []
        then ((splitSentences (pyStrip (normWsAll (BN._strip_notices text)))).take 2).filter
          (fun s => ¬(pyStrip s).isEmpty = true)
        else BN.collectClinical ((splitSentences (pyStrip (normWsAll (BN._strip_notices text)))).take 12) 0).take 2
      = cl2
    by_cases h150 : 150 < (pySplitWs (pyStrip (joinSep [' '] cl2))).length
    · rw [if_pos h150]
      have hclean : ∀ w ∈ (pySplitWs (pyStrip (joinSep [' '] cl2))).take 150, cleanWord w :=
        fun w hw => mem_pySplitWs _ w (List.mem_of_mem_take hw)
      have hlen : ((pySplitWs (pyStrip (joinSep [' '] cl2))).take 150).length = 150 := by
        rw [List.length_take]
        omega
      have hne : (pySplitWs (pyStrip (joinSep [' '] cl2))).take 150 ≠ [] := by
        intro h
        rw [h] at hlen
        simp at hlen
      have hwc : wordCount (joinSep [' ']
          ((pySplitWs (pyStrip (joinSep [' '] cl2))).take 150)) = 150 := by
        have := pySplitWs_joinSep _ hclean
        rw [wordCount]
        rw [show (" ".data : List Char) = [' '] from rfl] at this
        rw [this, hlen]
      exact summary_finalize_spec _ (by omega)
        (fun _ => by
          have := joinSep_clean_last_not_ws _ hne hclean
          rw [show (" ".data : List Char) = [' '] from rfl] at this
          exact this)
    · rw [if_neg h150]
      refine summary_finalize_spec _ ?_ ?_
      · rw [wordCount]
        omega
      · intro h
        exact pyStrip_getLastD_not_ws _ h

theorem ps_trunc_spec (s0 : List Char) :
    wordCount (if 150 < (pySplitWs s0).length then
        pyRstrip [',', ';'] (joinSep [' '] ((pySplitWs s0).take 150)) ++ ['.']
      else s0) ≤ 150 := by
  by_cases h : 150 < (pySplitWs s0).length
  · rw [if_pos h]
    have hclean : ∀ w ∈ (pySplitWs s0).take 150, cleanWord w :=
      fun w hw => mem_pySplitWs _ w (List.mem_of_mem_take hw)
    have hlen : ((pySplitWs s0).take 150).length = 150 := by
      rw [List.length_take]
      omega
    have hne : (pySplitWs s0).take 150 ≠ [] := by
      intro hz
      rw [hz] at hlen
      simp at hlen
    have hdlen : ((pySplitWs s0).take 150).dropLast.length = 149 := by
      rw [List.length_dropLast, hlen]
    have hdne : ((pySplitWs s0).take 150).dropLast ≠ [] := by
      intro hz
      rw [hz] at hdlen
      simp at hdlen
    have hdclean : ∀ w ∈ ((pySplitWs s0).take 150).dropLast, cleanWord w :=
      fun w hw => hclean w (List.Sublist.mem hw (List.dropLast_sublist _))
    set dl := ((pySplitWs s0).take 150).dropLast with hdl
    set lw := ((pySplitWs s0).take 150).getLast hne with hlw
    have hlwclean : cleanWord lw := hclean lw (List.getLast_mem hne)
    have hjoin : joinSep [' '] ((pySplitWs s0).take 150) = (joinSep [' '] dl ++ [' ']) ++ lw := by
      conv_lhs => rw [← List.dropLast_append_getLast hne]
      rw [joinSep_append_last [' '] lw dl hdne]
    rw [hjoin, pyRstrip_append]
    by_cases hrl : pyRstrip [',', ';'] lw = []
    · rw [if_pos hrl]
      have hx : pyRstrip [',', ';'] (joinSep [' '] dl ++ [' ']) = joinSep [' '] dl ++ [' '] := by
        refine pyRstrip_eq_self _ _ (by simp) ?_
        rw [List.getLastD_concat]
        decide
      rw [hx]
      have hform : (joinSep [' '] dl ++ [' ']) ++ ['.'] = joinSep [' '] (dl ++ [['.']]) := by
        rw [joinSep_append_last [' '] ['.'] dl hdne]
      rw [hform]
      have hsplit2 := pySplitWs_joinSep (dl ++ [['.']]) (by
        intro w hw
        rcases List.mem_append.mp hw with hw | hw
        · exact hdclean w hw
        · rw [List.mem_singleton.mp hw]
          refine ⟨by simp, ?_⟩
          intro c hc
          rw [List.mem_singleton.mp hc]
          rfl)
      rw [show (" ".data : List Char) = [' '] from rfl] at hsplit2
      rw [wordCount, hsplit2]
      simp only [List.length_append, List.length_singleton]
      omega
    · rw [if_neg hrl]
      have hform : ((joinSep [' '] dl ++ [' ']) ++ pyRstrip [',', ';'] lw) ++ ['.']
          = joinSep [' '] (dl ++ [pyRstrip [',', ';'] lw ++ ['.']]) := by
        rw [joinSep_append_last [' '] (pyRstrip [',', ';'] lw ++ ['.']) dl hdne]
        simp
      rw [hform]
      have hsplit2 := pySplitWs_joinSep (dl ++ [pyRstrip [',', ';'] lw ++ ['.']]) (by
        intro w hw
        rcases List.mem_append.mp hw with hw | hw
        · exact hdclean w hw
        · rw [List.mem_singleton.mp hw]
          refine ⟨by simp, ?_⟩
          intro c hc
          rcases List.mem_append.mp hc with hc | hc
          · exact hlwclean.2 c (mem_pyRstrip _ _ c hc)
          · rw [List.mem_singleton.mp hc]
            rfl)
      rw [show (" ".data : List Char) = [' '] from rfl] at hsplit2
      rw [wordCount, hsplit2]
      simp only [List.length_append, List.length_singleton]
      omega
  · rw [if_neg h]
    rw [wordCount]
    omega

theorem ps_generate_summary_spec (text lo : List Char) :
    wordCount (PS.generate_summary text lo) ≤ 150 := by
  simp only [PS.generate_summary]
  by_cases htext : pyStrip text = []
  · rw [if_pos htext]
    simp [wordCount, pySplitWs]
  · rw [if_neg htext]
    have hrank : PS.sortDesc PS.psScore (splitSentences (pyStrip text)) ≠ [] :=
      sortDesc_ne_nil _ _ (splitSentences_ne_nil _)
    obtain ⟨first, restR, hR⟩ := List.exists_cons_of_ne_nil hrank
    rw [hR]
    exact ps_trunc_spec _

/-- C4 amended: generate_summary always returns at most 150 words in
both scripts; in build_nelson_gpt_knowledge.py a nonempty summary
moreover ends with sentence punctuation, while in processing_script.py
the trailing-punctuation guarantee fails - the counterexample returns a
nonempty summary ending in a letter. -/
theorem claim_C4_amended :
    (∀ text : List Char,
      wordCount (BN.generate_summary text) ≤ 150
      ∧ (BN.generate_summary text ≠ [] →
          isSentEnd ((BN.generate_summary text).getLastD ' ') = true))
    ∧ (∀ text lo : List Char, wordCount (PS.generate_summary text lo) ≤ 150) := by
  exact ⟨bn_generate_summary_spec, ps_generate_summary_spec⟩

/-- C4 counterexample: processing_script's generate_summary returns the
nonempty summary Asthma is common, whose last character is not one of
the three sentence punctuation marks. -/
theorem claim_C4_counterexample :
    PS.generate_summary "Asthma is common".data [] = "Asthma is common".data
    ∧ PS.generate_summary "Asthma is common".data [] ≠ []
    ∧ isSentEnd ((PS.generate_summary "Asthma is common".data []).getLastD ' ') = false := by
  refine ⟨by decide, by decide, by decide⟩

end Nelson
